import Mathlib

/-!
Shallow embedding of the `docroutes` repository core:
the semantic Type model (`src/types.ts`), the type translator and route
model builder (`src/index.ts`, class `RoutesFrontend`), and the text
layout engine (`TextBlock`).

Modelling conventions:
* TS `string | null` fields become `Option String`; a JS object field that
  is absent at runtime is conflated with `null` (both become `none`).
* JS string-keyed objects (`{ [name: string]: T }`) become insertion-ordered
  association lists `List (String × T)`; assignment `o[k] = v` replaces the
  value in place when the key exists and appends otherwise, which matches
  JS property-order semantics (`insertAssoc` below).
* Numeric payloads are restricted to integers (`Int`); the AST carries the
  value of a numeric token directly, so `Number(text)` and
  `parseInt(text, 10)` coincide on it.
* Exceptions become `Except Err`; mutable instance state
  (`currentModule` / `currentSourceFile`) is threaded explicitly, and a
  thrown error propagates the state at throw time (as JS does).
-/

/-- A literal set: either the `"all"` marker or an explicit list of
literal values (`"all" | α[]` in `src/types.ts`). -/
inductive Lits (α : Type) where
  | all : Lits α
  | lits (xs : List α) : Lits α
deriving Repr, DecidableEq

/-- Membership in a literal set; the `"all"` marker contains everything. -/
def Lits.Mem {α : Type} (x : α) : Lits α → Prop
  | .all => True
  | .lits xs => x ∈ xs

instance {α : Type} [DecidableEq α] (x : α) (s : Lits α) : Decidable (Lits.Mem x s) := by
  cases s with
  | all => exact isTrue trivial
  | lits xs => exact inferInstanceAs (Decidable (x ∈ xs))

/-- The semantic Type value (`Type` in `src/types.ts`): a closed tagged
union; every variant carries the `documentation` / `name` fields its
interface declares (for `INullType` / `IUndefinedType` the runtime objects
built by `parseType` carry a `documentation` field, so we keep it). -/
inductive Ty where
  | num (documentation : Option String) (name : Option String) (numbers : Lits Int)
  | bool (documentation : Option String) (name : Option String) (booleans : Lits Bool)
  | str (documentation : Option String) (name : Option String) (strings : Lits String)
  | enum (documentation : Option String) (name : String) (enumValues : List (String × String))
  | arr (documentation : Option String) (name : Option String) (arrayMembers : Ty)
  | tuple (documentation : Option String) (name : Option String) (tupleMembers : List Ty)
  | obj (documentation : Option String) (name : Option String) (objectMembers : List (String × Ty))
  | nullT (documentation : Option String)
  | undefT (documentation : Option String)
  | union (documentation : Option String) (name : Option String) (types : List Ty)
  | inter (documentation : Option String) (name : Option String) (types : List Ty)
deriving Repr

/-- JS property assignment on a string-keyed object: replace in place if
the key exists (keeping its position), else append. -/
def insertAssoc {α : Type} : List (String × α) → String → α → List (String × α)
  | [], k, v => [(k, v)]
  | (k', v') :: rest, k, v =>
    if k' = k then (k', v) :: rest else (k', v') :: insertAssoc rest k v

/-- Key lookup on a string-keyed object. -/
def lookupAssoc {α : Type} : List (String × α) → String → Option α
  | [], _ => none
  | (k', v') :: rest, k => if k' = k then some v' else lookupAssoc rest k

/-- The `"objectMembers" in type` runtime check used by the source. -/
def Ty.hasObjectMembers : Ty → Bool
  | .obj _ _ _ => true
  | _ => false

/-- Result shape of `performKeyOf` (an `IStringType` record). -/
structure SRec where
  documentation : Option String
  name : Option String
  strings : Lits String
deriving Repr, DecidableEq

/-- Errors thrown by the frontend.  `TypeParseFailure.withContext` wraps
an inner error with the syntactic text of the node being unwound; we keep
the wrapping structure and drop the message text. -/
inductive Err where
  | badType
  | unhandledType
  | withContext (inner : Err)
  | keyofFailed
  | typeParamsNotImplemented
  | unknownEnumMemberKind
  | computedPropertyName
  | identifierFailure
  | invalidHttpMethod (s : String)
  | unknownMethodMember (s : String)
  | noSourceFileSet
  | jsTypeError
  | fuelExhausted
deriving Repr, DecidableEq

/-- The `reduce` step for intersection key sets (`performKeyOf`,
`src/index.ts:362-371`): an `"all"` operand leaves the accumulator
unchanged; an `"all"` accumulator is replaced; otherwise filter. -/
def interStep (acc strings : Lits String) : Lits String :=
  match strings with
  | .all => acc
  | .lits ss =>
    match acc with
    | .all => .lits ss
    | .lits as => .lits (as.filter (fun s => ss.contains s))

/-- The `reduce` step for union key sets (`src/index.ts:377-383`). -/
def unionStep (acc strings : Lits String) : Lits String :=
  match strings, acc with
  | .all, _ => .all
  | _, .all => .all
  | .lits ss, .lits as => .lits (as ++ ss.filter (fun s => !as.contains s))

/-- Fold of intersection key sets, seeded with `"all"`. -/
def interFold (ss : List (Lits String)) : Lits String := ss.foldl interStep .all

/-- Fold of union key sets, seeded with the empty list. -/
def unionFold (ss : List (Lits String)) : Lits String := ss.foldl unionStep (.lits [])

mutual
/-- Embedding of `RoutesFrontend.performKeyOf` (`src/index.ts:351-388`): key-set
computation over a translated Type. -/
def performKeyOf : Ty → Except Err SRec
  | .obj d n ms => .ok ⟨d, n, .lits (ms.map Prod.fst)⟩
  | .inter d n ts => do
    let ss ← keyOfStrings ts
    .ok ⟨d, n, interFold ss⟩
  | .union d n ts => do
    let ss ← keyOfStrings ts
    .ok ⟨d, n, unionFold ss⟩
  | _ => .error .keyofFailed

/-- The `type.intersection.map((t) => this.performKeyOf(t).strings)` part:
key sets of a list of operands (first failure aborts). -/
def keyOfStrings : List Ty → Except Err (List (Lits String))
  | [] => .ok []
  | t :: ts => do
    let r ← performKeyOf t
    let rs ← keyOfStrings ts
    .ok (r.strings :: rs)
end

/-! ## Syntax-tree embedding

A fragment of the TypeScript AST covering the node kinds the frontend
inspects.  A node kind `parseType` does not handle falls to its trailing
`unhandledType` failure, which `otherNode` represents generically. -/

/-- Payload of a `LiteralType` node (`literal.literal.kind`).  Numeric
tokens are carried by integer value (see the conventions above). -/
inductive TsLiteral where
  | trueLit
  | falseLit
  | numericLit (value : Int)
  | stringLit (text : String)
  | otherLit
deriving Repr, DecidableEq

/-- A `ts.PropertyName`.  Numeric names keep their source text, since the
route builder runs `parseInt` on it. -/
inductive PropName where
  | identName (text : String)
  | stringName (text : String)
  | numericName (text : String)
  | computedName
  | otherName
deriving Repr, DecidableEq

/-- A `ts.EntityName`: an identifier or a dotted qualified name. -/
inductive EntityName where
  | ident (text : String)
  | qualified (left : EntityName) (right : String)
deriving Repr, DecidableEq

/-- Initializer of an enum member. -/
inductive EnumInit where
  | numInit (value : Int)
  | strInit (text : String)
  | otherInit
deriving Repr, DecidableEq

/-- An enum member: its documentation and optional initializer (the
member's own name is never read by `parseType`). -/
structure EnumMember where
  documentation : Option String
  initializer : Option EnumInit
deriving Repr, DecidableEq

/-- The AST node.  `doc` is the merged JSDoc documentation
(`RoutesFrontend.getDocumentation`); the JSDoc merging itself is upstream
of everything the claims touch, so nodes carry the merged result.
Type-element members are nodes themselves (the source filters them by
`member.kind !== ts.SyntaxKind.PropertySignature`).  `interfaceDecl`
carries its heritage clauses as a list of clauses, each a list of
(`ExpressionWithTypeArguments`) nodes.  `typeParams` counts the
declaration's type parameters. -/
inductive TsNode where
  | booleanKeyword (doc : Option String)
  | numberKeyword (doc : Option String)
  | stringKeyword (doc : Option String)
  | objectKeyword (doc : Option String)
  | nullKeyword (doc : Option String)
  | undefinedKeyword (doc : Option String)
  | functionType (doc : Option String)
  | arrayType (doc : Option String) (elementType : TsNode)
  | literalType (doc : Option String) (lit : TsLiteral)
  | tupleType (doc : Option String) (elementTypes : List TsNode)
  | typeReference (doc : Option String) (typeName : EntityName)
  | exprWithTypeArgs (doc : Option String) (expression : Option String)
  | typeOperator (doc : Option String) (isKeyOfOp : Bool) (inner : TsNode)
  | typeLiteral (doc : Option String) (members : List TsNode)
  | interfaceDecl (doc : Option String) (name : String) (typeParams : Nat)
      (heritage : List (List TsNode)) (members : List TsNode)
  | enumDecl (doc : Option String) (name : String) (members : List EnumMember)
  | unionType (doc : Option String) (types : List TsNode)
  | intersectionType (doc : Option String) (types : List TsNode)
  | typeAlias (doc : Option String) (name : String) (typeParams : Nat) (target : TsNode)
  | propertySignature (doc : Option String) (name : Option PropName)
      (question : Bool) (type : Option TsNode)
  | varDecl (doc : Option String) (name : Option String)
  | varDeclList (doc : Option String) (decls : List TsNode)
  | functionDecl (doc : Option String) (name : Option String)
  | classDecl (doc : Option String) (name : Option String)
  | namespaceExport (doc : Option String) (name : String)
  | objectLiteral (doc : Option String) (properties : List TsNode)
  | propAssignment (doc : Option String) (name : PropName)
  | shorthandAssignment (doc : Option String) (name : PropName)
  | methodDecl (doc : Option String) (name : PropName)
  | accessorDecl (doc : Option String) (name : PropName)
  | otherNode (doc : Option String)
deriving Repr

/-- Embedding of `RoutesFrontend.getDocumentation`: the merged JSDoc text of a node
(our nodes carry the merged result directly). -/
def getDocumentation : TsNode → Option String
  | .booleanKeyword d | .numberKeyword d | .stringKeyword d | .objectKeyword d
  | .nullKeyword d | .undefinedKeyword d | .functionType d
  | .arrayType d _ | .literalType d _ | .tupleType d _
  | .typeReference d _ | .exprWithTypeArgs d _ | .typeOperator d _ _
  | .typeLiteral d _ | .interfaceDecl d _ _ _ _ | .enumDecl d _ _
  | .unionType d _ | .intersectionType d _ | .typeAlias d _ _ _
  | .propertySignature d _ _ _ | .varDecl d _ | .varDeclList d _
  | .functionDecl d _ | .classDecl d _ | .namespaceExport d _
  | .objectLiteral d _ | .propAssignment d _ | .shorthandAssignment d _
  | .methodDecl d _ | .accessorDecl d _ | .otherNode d => d

/-- Embedding of `RoutesFrontend.getMemberName` (`src/index.ts:926-939`): identifier /
string-literal / numeric-literal names yield text, a computed property
name throws, anything else yields `null`. -/
def getMemberName : PropName → Except Err (Option String)
  | .identName s => .ok (some s)
  | .stringName s => .ok (some s)
  | .numericName s => .ok (some s)
  | .computedName => .error .computedPropertyName
  | .otherName => .ok none

/-- Embedding of `RoutesFrontend.showEntityName`: the dotted rendering of an entity
name. -/
def showEntityName : EntityName → String
  | .ident s => s
  | .qualified l r => showEntityName l ++ "." ++ r

/-- Documentation-record getter on a semantic Type (`r.documentation`,
well-defined on every variant `parseType` produces). -/
def Ty.getDocumentation : Ty → Option String
  | .num d _ _ | .bool d _ _ | .str d _ _ | .enum d _ _ | .arr d _ _
  | .tuple d _ _ | .obj d _ _ | .nullT d | .undefT d
  | .union d _ _ | .inter d _ _ => d

/-- Documentation-record setter (`r.documentation = ...` in the
type-alias case). -/
def Ty.setDocumentation (t : Ty) (d : Option String) : Ty :=
  match t with
  | .num _ n l => .num d n l
  | .bool _ n l => .bool d n l
  | .str _ n l => .str d n l
  | .enum _ n vs => .enum d n vs
  | .arr _ n e => .arr d n e
  | .tuple _ n ts => .tuple d n ts
  | .obj _ n ms => .obj d n ms
  | .nullT _ => .nullT d
  | .undefT _ => .undefT d
  | .union _ n ts => .union d n ts
  | .inter _ n ts => .inter d n ts

/-! ## Symbol resolver -/

/-- The pre-built program: for each module path, its top-level statements
(`program.getSourceFileByPath` + `sourceFile.statements`).  The source
file handed around with a lookup result is identified by its module
path. -/
structure Program where
  modules : List (String × List TsNode)

/-- The import table (`IImportMap`): importing module → imported-as name →
(target module, original name).  Built once before any resolution. -/
structure ImportMap where
  entries : List (String × List (String × String × String))

/-- Look up the import entry for `importedAs` in `importingModule`
(`this.imports[m][id]`). -/
def ImportMap.find (im : ImportMap) (importingModule importedAs : String) :
    Option (String × String) :=
  match (im.entries.find? (fun e => e.1 = importingModule)).map Prod.snd with
  | none => none
  | some m =>
    match m.find? (fun e => e.1 = importedAs) with
    | none => none
    | some (_, tgt, nm) => some (tgt, nm)

/-- Whether the import table has any entries for `importingModule`
(`this.imports[m] === undefined`). -/
def ImportMap.hasModule (im : ImportMap) (importingModule : String) : Bool :=
  (im.entries.find? (fun e => e.1 = importingModule)).isSome

/-- The mutable resolution context of `RoutesFrontend`: the current module
and current source file, always set together by `setCurrentModule`. -/
structure St where
  currentModule : Option String
  currentSourceFile : Option String
deriving Repr, DecidableEq

/-- Embedding of `RoutesFrontend.setCurrentModule`. -/
def setCurrentModule (moduleName sourceFile : Option String) (_ : St) : St :=
  ⟨moduleName, sourceFile⟩

/-- Match of one top-level statement against a searched name, mirroring
the `switch` in `RoutesFrontend.lookupNode` (`src/index.ts:199-262`). -/
def stmtMatch (nodeName : String) : TsNode → Option TsNode
  | .varDecl d n => if n = some nodeName then some (.varDecl d n) else none
  | .varDeclList _ decls =>
    decls.findSome? (fun decl =>
      match decl with
      | .varDecl d n => if n = some nodeName then some (.varDecl d n) else none
      | _ => none)
  | .functionDecl d n => if n = some nodeName then some (.functionDecl d n) else none
  | .classDecl d n => if n = some nodeName then some (.classDecl d n) else none
  | .interfaceDecl d nm tp hs ms =>
    if nm = nodeName then some (.interfaceDecl d nm tp hs ms) else none
  | .typeAlias d nm tp t => if nm = nodeName then some (.typeAlias d nm tp t) else none
  | .enumDecl d nm ms => if nm = nodeName then some (.enumDecl d nm ms) else none
  | .namespaceExport d nm => if nm = nodeName then some (.namespaceExport d nm) else none
  | _ => none

/-- Embedding of `RoutesFrontend.lookupNode`: search a module's top-level statements
for a declaration named `nodeName`; the returned triple is (module,
source file, node). -/
def lookupNode (prog : Program) (moduleName nodeName : String) :
    Option (String × String × TsNode) :=
  match (prog.modules.find? (fun e => e.1 = moduleName)).map Prod.snd with
  | none => none
  | some stmts => (stmts.findSome? (stmtMatch nodeName)).map
      (fun node => (moduleName, moduleName, node))

/-- Embedding of `RoutesFrontend.lookupIdentifierInCurrentModule`. -/
def lookupIdentifierInCurrentModule (prog : Program) (st : St) (identifier : String) :
    Option (String × String × TsNode) :=
  match st.currentModule with
  | none => none
  | some m => lookupNode prog m identifier

/-- Embedding of `RoutesFrontend.lookupIdentifier`: follow the import table when it has
an entry for the identifier, else fall back to the current module. -/
def lookupIdentifier (prog : Program) (imap : ImportMap) (st : St) (identifier : String) :
    Option (String × String × TsNode) :=
  match st.currentModule with
  | none => none
  | some m =>
    if !imap.hasModule m then
      lookupIdentifierInCurrentModule prog st identifier
    else
      match imap.find m identifier with
      | none => lookupIdentifierInCurrentModule prog st identifier
      | some (targetModule, targetName) => lookupNode prog targetModule targetName

/-- Search the members of an interface / type literal for a property
signature named `rightName` (`RoutesFrontend.lookupEntity`, qualified-name
case).  `getMemberName` can throw on a computed property name. -/
def findMemberByName (newModule newSourceFile : String) (rightName : String) :
    List TsNode → Except Err (Option (String × String × TsNode))
  | [] => .ok none
  | m :: ms =>
    match m with
    | .propertySignature d (some pn) q t => do
      let nm ← getMemberName pn
      if nm = some rightName then
        .ok (some (newModule, newSourceFile, .propertySignature d (some pn) q t))
      else
        findMemberByName newModule newSourceFile rightName ms
    | _ => findMemberByName newModule newSourceFile rightName ms

/-- Search the properties of an object-literal expression by name
(`RoutesFrontend.lookupEntity`, `ObjectLiteralExpression` case). -/
def findPropertyByName (newModule newSourceFile : String) (rightName : String) :
    List TsNode → Except Err (Option (String × String × TsNode))
  | [] => .ok none
  | p :: ps => do
    let hit? ← match p with
      | .propAssignment d n => do
        let nm ← getMemberName n
        pure (if nm = some rightName then some (TsNode.propAssignment d n) else none)
      | .shorthandAssignment d n => do
        let nm ← getMemberName n
        pure (if nm = some rightName then some (TsNode.shorthandAssignment d n) else none)
      | .methodDecl d n => do
        let nm ← getMemberName n
        pure (if nm = some rightName then some (TsNode.methodDecl d n) else none)
      | .accessorDecl d n => do
        let nm ← getMemberName n
        pure (if nm = some rightName then some (TsNode.accessorDecl d n) else none)
      | _ => pure none
    match hit? with
    | some node => .ok (some (newModule, newSourceFile, node))
    | none => findPropertyByName newModule newSourceFile rightName ps

/-- Embedding of `RoutesFrontend.lookupEntity` (`src/index.ts:287-349`): resolve an
entity name; for a qualified name resolve the left part first, then look
the right part up as a member of the result. -/
def lookupEntity (prog : Program) (imap : ImportMap) (st : St) :
    EntityName → Except Err (Option (String × String × TsNode))
  | .ident s => .ok (lookupIdentifier prog imap st s)
  | .qualified left rightName => do
    let l ← lookupEntity prog imap st left
    match l with
    | none => .ok none
    | some (newModule, newSourceFile, baseType) =>
      match baseType with
      | .interfaceDecl _ _ _ _ members =>
        findMemberByName newModule newSourceFile rightName members
      | .typeLiteral _ members =>
        findMemberByName newModule newSourceFile rightName members
      | .objectLiteral _ properties =>
        findPropertyByName newModule newSourceFile rightName properties
      | _ => .ok none

/-! ## Type translator -/

/-- Embedding of `TypeParseFailure.badType(type, this.getCurrentSourceFile())`:
constructing the failure first calls `getCurrentSourceFile`, which itself
throws when no source file is set. -/
def mkBadType (st : St) : Err :=
  if st.currentSourceFile.isNone then .noSourceFileSet else .badType

/-- Embedding of `TypeParseFailure.unhandledType(type, this.getCurrentSourceFile())`
(the trailing throw of `parseType`, outside its `try`). -/
def mkUnhandled (st : St) : Err :=
  if st.currentSourceFile.isNone then .noSourceFileSet else .unhandledType

/-- The `catch` of `parseType` (`src/index.ts:686-688`): wrap any error
thrown in the `try` with the node context (again via
`getCurrentSourceFile`, which throws when unset). -/
def wrapCtx (st : St) (e : Err) : Err :=
  if st.currentSourceFile.isNone then .noSourceFileSet else .withContext e

/-- Elementwise translation of a node list (tuple / union / intersection
operands): each element is translated with `name = null`, the first
failure aborts. -/
def parseList (recur : TsNode → Option String → Bool → St → Except Err Ty × St)
    (isKeyof : Bool) : List TsNode → St → Except Err (List Ty) × St
  | [], st => (.ok [], st)
  | n :: ns, st =>
    match recur n none isKeyof st with
    | (.error e, st') => (.error e, st')
    | (.ok t, st') =>
      match parseList recur isKeyof ns st' with
      | (.error e, st'') => (.error e, st'')
      | (.ok ts, st'') => (.ok (t :: ts), st'')

/-- The member loop shared by the `TypeLiteral` and
`InterfaceDeclaration` cases of `parseType` (`src/index.ts:547-566` and
`576-595`): non-property-signature members and members without a usable
name are skipped; a member with a name but no type raises the JS
`TypeError` the source would hit inside its `try`; an optional member's
type is overwritten in place with `Union(type, Undefined)` (the source
assigns and then overwrites the same key; one in-place insertion of the
final value is the same operation on the member map). -/
def parseObjectMembers (recur : TsNode → Option String → Bool → St → Except Err Ty × St)
    (isKeyof : Bool) : List TsNode → List (String × Ty) → St →
    Except Err (List (String × Ty)) × St
  | [], acc, st => (.ok acc, st)
  | m :: ms, acc, st =>
    match m with
    | .propertySignature _ (some pn) q mty =>
      match getMemberName pn with
      | .error e => (.error e, st)
      | .ok none => parseObjectMembers recur isKeyof ms acc st
      | .ok (some s) =>
        match mty with
        | none => (.error .jsTypeError, st)
        | some τ =>
          match recur τ none isKeyof st with
          | (.error e, st') => (.error e, st')
          | (.ok t, st') =>
            let t' := if q then Ty.union none none [t, .undefT none] else t
            parseObjectMembers recur isKeyof ms (insertAssoc acc s t') st'
    | _ => parseObjectMembers recur isKeyof ms acc st

/-- The JS object-spread merge `{...objectMembers, ...parsed.objectMembers}`:
every key of the second map is assigned over the first, keeping the
position of keys that already exist. -/
def spreadMerge (a b : List (String × Ty)) : List (String × Ty) :=
  b.foldl (fun acc kv => insertAssoc acc kv.1 kv.2) a

/-- One heritage clause's `types` loop (`src/index.ts:598-606`): each
parent type is translated; parents that do not produce an Object are
ignored; Object parents are spread over the accumulated members. -/
def parseHeritageTypes (recur : TsNode → Option String → Bool → St → Except Err Ty × St)
    (isKeyof : Bool) : List TsNode → List (String × Ty) → St →
    Except Err (List (String × Ty)) × St
  | [], oms, st => (.ok oms, st)
  | pt :: pts, oms, st =>
    match recur pt none isKeyof st with
    | (.error e, st') => (.error e, st')
    | (.ok parsed, st') =>
      let oms' := match parsed with
        | .obj _ _ pms => spreadMerge oms pms
        | _ => oms
      parseHeritageTypes recur isKeyof pts oms' st'

/-- The heritage-clause loop of the `InterfaceDeclaration` case. -/
def parseHeritage (recur : TsNode → Option String → Bool → St → Except Err Ty × St)
    (isKeyof : Bool) : List (List TsNode) → List (String × Ty) → St →
    Except Err (List (String × Ty)) × St
  | [], oms, st => (.ok oms, st)
  | clause :: clauses, oms, st =>
    match parseHeritageTypes recur isKeyof clause oms st with
    | (.error e, st') => (.error e, st')
    | (.ok oms', st') => parseHeritage recur isKeyof clauses oms' st'

/-- The enum-member loop (`src/index.ts:618-647`): a numeric or string
literal initializer contributes its value; a member without initializer
contributes the running member counter, which advances for every member;
any other initializer kind throws. -/
def enumMembersLoop : List EnumMember → Nat → Except Err (List Ty)
  | [], _ => .ok []
  | m :: ms, counter =>
    match m.initializer with
    | some (.numInit v) =>
      match enumMembersLoop ms (counter + 1) with
      | .error e => .error e
      | .ok rest => .ok (.num m.documentation none (.lits [v]) :: rest)
    | some (.strInit s) =>
      match enumMembersLoop ms (counter + 1) with
      | .error e => .error e
      | .ok rest => .ok (.str m.documentation none (.lits [s]) :: rest)
    | some .otherInit => .error .unknownEnumMemberKind
    | none =>
      match enumMembersLoop ms (counter + 1) with
      | .error e => .error e
      | .ok rest => .ok (.num m.documentation none (.lits [(counter : Int)]) :: rest)

/-- Embedding of `RoutesFrontend.parseType` (`src/index.ts:390-690`), fuel-indexed (the
source recursion is unbounded on cyclic type graphs; `fuelExhausted` is
the out-of-fuel artifact of the embedding).  The inner value of the big
`switch` is an `Option`: `none` models falling out of the `switch` into
the trailing `unhandledType` throw; any error produced inside the `try`
is wrapped by the `catch` (`wrapCtx`). -/
def parseType (prog : Program) (imap : ImportMap) :
    Nat → TsNode → Option String → Bool → St → Except Err Ty × St
  | 0, _, _, _, st => (.error .fuelExhausted, st)
  | fuel + 1, node, name, isKeyof, st =>
    let recur := parseType prog imap fuel
    let body : Option (Except Err Ty × St) :=
      match node with
      | .booleanKeyword d => some (.ok (.bool d name .all), st)
      | .numberKeyword d => some (.ok (.num d name .all), st)
      | .stringKeyword d => some (.ok (.str d name .all), st)
      | .objectKeyword d => some (.ok (.obj d name []), st)
      | .nullKeyword d => some (.ok (.nullT d), st)
      | .undefinedKeyword d => some (.ok (.undefT d), st)
      | .functionType _ =>
        if isKeyof then
          -- an empty type so that keyof can range over records containing functions
          some (.ok (.inter none none []), st)
        else
          some (.error (mkBadType st), st)
      | .arrayType d elementType =>
        match recur elementType none isKeyof st with
        | (.error e, st') => some (.error e, st')
        | (.ok t, st') => some (.ok (.arr d name t), st')
      | .literalType d lit =>
        match lit with
        | .trueLit => some (.ok (.bool d name (.lits [true])), st)
        | .falseLit => some (.ok (.bool d name (.lits [false])), st)
        | .numericLit v => some (.ok (.num d name (.lits [v])), st)
        | .stringLit s => some (.ok (.str d name (.lits [s])), st)
        | .otherLit => none
      | .tupleType d elementTypes =>
        match parseList recur isKeyof elementTypes st with
        | (.error e, st') => some (.error e, st')
        | (.ok ts, st') => some (.ok (.tuple d name ts), st')
      | .typeReference d typeName =>
        match lookupEntity prog imap st typeName with
        | .error e => some (.error e, st)
        | .ok none => some (.ok (.obj d (some (showEntityName typeName)) []), st)
        | .ok (some (newModule, newSourceFile, newType)) =>
          let st1 := setCurrentModule (some newModule) (some newSourceFile) st
          let (r, st2) := recur newType (some (name.getD (showEntityName typeName))) isKeyof st1
          let st3 := setCurrentModule st.currentModule st.currentSourceFile st2
          some (r, st3)
      | .exprWithTypeArgs _ expression =>
        match expression with
        | none => some (.error .identifierFailure, st)
        | some identifier =>
          match lookupIdentifier prog imap st identifier with
          | none => none
          | some (newModule, newSourceFile, newType) =>
            let st1 := setCurrentModule (some newModule) (some newSourceFile) st
            let (r, st2) := recur newType (some (name.getD identifier)) isKeyof st1
            let st3 := setCurrentModule st.currentModule st.currentSourceFile st2
            some (r, st3)
      | .typeOperator d isKeyOfOp inner =>
        if isKeyOfOp then
          match recur inner none true st with
          | (.error e, st') => some (.error e, st')
          | (.ok parsedType, st') =>
            match performKeyOf parsedType with
            | .error e => some (.error e, st')
            | .ok sr =>
              -- {...performKeyOf(parsed), ...getDocumentation(type), name}:
              -- the later spreads override documentation and name
              some (.ok (.str d name sr.strings), st')
        else none
      | .typeLiteral d members =>
        match parseObjectMembers recur isKeyof members [] st with
        | (.error e, st') => some (.error e, st')
        | (.ok oms, st') => some (.ok (.obj d name oms), st')
      | .interfaceDecl d _ _ heritage members =>
        match parseObjectMembers recur isKeyof members [] st with
        | (.error e, st') => some (.error e, st')
        | (.ok own, st') =>
          match parseHeritage recur isKeyof heritage own st' with
          | (.error e, st'') => some (.error e, st'')
          | (.ok oms, st'') => some (.ok (.obj d name oms), st'')
      | .enumDecl d _ members =>
        match enumMembersLoop members 0 with
        | .error e => some (.error e, st)
        | .ok us => some (.ok (.union d name us), st)
      | .unionType d types =>
        match parseList recur isKeyof types st with
        | (.error e, st') => some (.error e, st')
        | (.ok ts, st') => some (.ok (.union d name ts), st')
      | .intersectionType d types =>
        match parseList recur isKeyof types st with
        | (.error e, st') => some (.error e, st')
        | (.ok ts, st') => some (.ok (.inter d name ts), st')
      | .typeAlias d aliasName typeParams target =>
        if typeParams > 0 then
          some (.error .typeParamsNotImplemented, st)
        else
          match recur target (some (name.getD aliasName)) isKeyof st with
          | (.error e, st') => some (.error e, st')
          | (.ok r, st') =>
            let r' := if r.getDocumentation = none then r.setDocumentation d else r
            some (.ok r', st')
      | _ => none
    match body with
    | none => (.error (mkUnhandled st), st)
    | some (.error e, st') => (.error (wrapCtx st' e), st')
    | some (.ok t, st') => (.ok t, st')

/-- An empty program / import table / context, for concrete runs that do
not resolve references. -/
def emptyProgram : Program := ⟨[]⟩

def emptyImports : ImportMap := ⟨[]⟩

def st0 : St := ⟨some "m", some "m"⟩

/-! ## Route model builder -/

/-- Embedding of `IAuthroization` (sic) from `src/types.ts`. -/
structure IAuthroization where
  documentation : Option String
  type : Ty
deriving Repr

/-- Embedding of `IBody` from `src/types.ts`. -/
structure IBody where
  documentation : Option String
  type : Ty
deriving Repr

/-- Embedding of `IParam` from `src/types.ts`. -/
structure IParam where
  documentation : Option String
  name : String
  type : Ty
deriving Repr

/-- Embedding of `IQueryParam` from `src/types.ts`. -/
structure IQueryParam where
  documentation : Option String
  name : String
  required : Bool
  type : Ty
deriving Repr

/-- Embedding of `IResponse` from `src/types.ts`; the status is the `parseInt` result. -/
structure IResponse where
  documentation : Option String
  status : Int
  body : Option Ty
deriving Repr

/-- The fixed HTTP verb set. -/
inductive HttpVerb where
  | GET | HEAD | POST | PUT | DELETE | CONNECT | OPTIONS | TRACE
deriving Repr, DecidableEq

/-- Embedding of `IMethodCallInfo` (`src/index.ts:19-26`). -/
structure IMethodCallInfo where
  authorization : Option IAuthroization
  body : Option IBody
  name : String
  params : List IParam
  query : List IQueryParam
  responses : List IResponse
deriving Repr

/-- Embedding of `IExportedRouteMethod` from `src/types.ts`. -/
structure IExportedRouteMethod where
  documentation : Option String
  name : String
  method : HttpVerb
  authorization : Option IAuthroization
  body : Option IBody
  params : List IParam
  query : List IQueryParam
  responses : List IResponse
deriving Repr

/-- Embedding of `IExportedRoute` from `src/types.ts`. -/
structure IExportedRoute where
  documentation : Option String
  route : String
  methods : List IExportedRouteMethod
deriving Repr

/-- Embedding of `IExportedRouter` from `src/types.ts`. -/
structure IExportedRouter where
  documentation : Option String
  name : String
  routeBase : String
  routes : List IExportedRoute
deriving Repr

/-- The initial `result` record of `findMethodCallInfoOnMembers`
(`src/index.ts:693-700`). -/
def defaultMethodCallInfo : IMethodCallInfo :=
  ⟨none, none, "UNNAMED", [], [], []⟩

/-- Embedding of `Number.parseInt(s, 10)`: skip leading whitespace, optional sign,
then the longest decimal-digit prefix; `none` is `NaN` (no digits).
Only the common whitespace characters are recognised. -/
def parseIntJs (s : String) : Option Int :=
  let cs := s.data.dropWhile (fun c => c = ' ' ∨ c = '\t' ∨ c = '\n' ∨ c = '\r')
  let (neg, cs2) : Bool × List Char :=
    match cs with
    | '-' :: r => (true, r)
    | '+' :: r => (false, r)
    | r => (false, r)
  let ds := cs2.takeWhile Char.isDigit
  if ds.isEmpty then none
  else
    let v : Nat := ds.foldl (fun acc c => acc * 10 + (c.toNat - 48)) 0
    some (if neg then -(v : Int) else (v : Int))

/-- The `param` member loop (`src/index.ts:733-752`). -/
def parseParamMembers (recur : TsNode → Option String → Bool → St → Except Err Ty × St) :
    List TsNode → St → Except Err (List IParam) × St
  | [], st => (.ok [], st)
  | m :: ms, st =>
    match m with
    | .propertySignature d (some pn) _ mty =>
      match getMemberName pn with
      | .error e => (.error e, st)
      | .ok nm? =>
        match nm?, mty with
        | some nm, some τ =>
          match recur τ none false st with
          | (.error e, st') => (.error e, st')
          | (.ok t, st') =>
            match parseParamMembers recur ms st' with
            | (.error e, st'') => (.error e, st'')
            | (.ok ps, st'') => (.ok (⟨d, nm, t⟩ :: ps), st'')
        | _, _ => parseParamMembers recur ms st
    | _ => parseParamMembers recur ms st

/-- The `query` member loop (`src/index.ts:759-778`): `required` is true
unless the member carries a question token. -/
def parseQueryMembers (recur : TsNode → Option String → Bool → St → Except Err Ty × St) :
    List TsNode → St → Except Err (List IQueryParam) × St
  | [], st => (.ok [], st)
  | m :: ms, st =>
    match m with
    | .propertySignature d (some pn) q mty =>
      match getMemberName pn with
      | .error e => (.error e, st)
      | .ok nm? =>
        match nm?, mty with
        | some nm, some τ =>
          match recur τ none false st with
          | (.error e, st') => (.error e, st')
          | (.ok t, st') =>
            match parseQueryMembers recur ms st' with
            | (.error e, st'') => (.error e, st'')
            | (.ok qs, st'') => (.ok (⟨d, nm, !q, t⟩ :: qs), st'')
        | _, _ => parseQueryMembers recur ms st
    | _ => parseQueryMembers recur ms st

/-- The `response` member loop (`src/index.ts:786-809`): the member name
is run through `parseInt`; members whose name is missing or does not
parse, or whose type is missing, are skipped with `continue`; a member
typed with the `undefined` keyword contributes an empty body; any other
type is translated as the response body. -/
def parseResponseMembers (recur : TsNode → Option String → Bool → St → Except Err Ty × St) :
    List TsNode → St → Except Err (List IResponse) × St
  | [], st => (.ok [], st)
  | m :: ms, st =>
    match m with
    | .propertySignature d (some pn) _ mty =>
      match getMemberName pn with
      | .error e => (.error e, st)
      | .ok rc? =>
        match rc?, parseIntJs (rc?.getD ""), mty with
        | some _, some v, some τ =>
          match τ with
          | .undefinedKeyword _ =>
            match parseResponseMembers recur ms st with
            | (.error e, st') => (.error e, st')
            | (.ok rs, st') => (.ok (⟨d, v, none⟩ :: rs), st')
          | _ =>
            match recur τ none false st with
            | (.error e, st') => (.error e, st')
            | (.ok t, st') =>
              match parseResponseMembers recur ms st' with
              | (.error e, st'') => (.error e, st'')
              | (.ok rs, st'') => (.ok (⟨d, v, some t⟩ :: rs), st'')
        | _, _, _ => parseResponseMembers recur ms st
    | _ => parseResponseMembers recur ms st

/-- Embedding of `RoutesFrontend.findMethodCallInfoOnMembers` (`src/index.ts:692-819`):
fold the recognised member names into the method-call record; an
unrecognised member name is a hard failure. -/
def findMethodCallInfoOnMembers
    (recur : TsNode → Option String → Bool → St → Except Err Ty × St) :
    List TsNode → IMethodCallInfo → St → Except Err IMethodCallInfo × St
  | [], acc, st => (.ok acc, st)
  | m :: ms, acc, st =>
    match m with
    | .propertySignature mdoc (some pn) _ mty =>
      match getMemberName pn with
      | .error e => (.error e, st)
      | .ok none => findMethodCallInfoOnMembers recur ms acc st
      | .ok (some nameString) =>
        match mty with
        | none => findMethodCallInfoOnMembers recur ms acc st
        | some ty =>
          if nameString = "authorization" then
            match recur ty none false st with
            | (.error e, st') => (.error e, st')
            | (.ok t, st') =>
              findMethodCallInfoOnMembers recur ms
                { acc with authorization := some ⟨mdoc, t⟩ } st'
          else if nameString = "body" then
            match recur ty none false st with
            | (.error e, st') => (.error e, st')
            | (.ok t, st') =>
              findMethodCallInfoOnMembers recur ms { acc with body := some ⟨mdoc, t⟩ } st'
          else if nameString = "name" then
            match recur ty none false st with
            | (.error e, st') => (.error e, st')
            | (.ok nameType, st') =>
              match nameType with
              | .str _ _ (.lits ss) =>
                findMethodCallInfoOnMembers recur ms
                  { acc with name := ss.foldl (· ++ ·) "" } st'
              | _ => findMethodCallInfoOnMembers recur ms acc st'
          else if nameString = "param" then
            match ty with
            | .typeLiteral _ pms =>
              match parseParamMembers recur pms st with
              | (.error e, st') => (.error e, st')
              | (.ok ps, st') =>
                findMethodCallInfoOnMembers recur ms { acc with params := ps } st'
            | _ => findMethodCallInfoOnMembers recur ms { acc with params := [] } st
          else if nameString = "query" then
            match ty with
            | .typeLiteral _ qms =>
              match parseQueryMembers recur qms st with
              | (.error e, st') => (.error e, st')
              | (.ok qs, st') =>
                findMethodCallInfoOnMembers recur ms { acc with query := qs } st'
            | _ => findMethodCallInfoOnMembers recur ms { acc with query := [] } st
          else if nameString = "response" then
            match ty with
            | .typeLiteral _ rms =>
              match parseResponseMembers recur rms st with
              | (.error e, st') => (.error e, st')
              | (.ok rs, st') =>
                findMethodCallInfoOnMembers recur ms { acc with responses := rs } st'
            | _ => findMethodCallInfoOnMembers recur ms { acc with responses := [] } st
          else
            (.error (.unknownMethodMember nameString), st)
    | _ => findMethodCallInfoOnMembers recur ms acc st

/-- Embedding of `RoutesFrontend.findMethodCallInfo` (`src/index.ts:821-851`). -/
def findMethodCallInfo (prog : Program) (imap : ImportMap) (fuel : Nat) :
    TsNode → St → Except Err IMethodCallInfo × St
  | .typeAlias _ _ typeParams target, st =>
    if typeParams > 0 then (.error .typeParamsNotImplemented, st)
    else findMethodCallInfo prog imap fuel target st
  | .interfaceDecl _ _ typeParams _ members, st =>
    if typeParams > 0 then (.error .typeParamsNotImplemented, st)
    else findMethodCallInfoOnMembers (parseType prog imap fuel) members
      defaultMethodCallInfo st
  | .typeLiteral _ members, st =>
    findMethodCallInfoOnMembers (parseType prog imap fuel) members
      defaultMethodCallInfo st
  | _, st => (.ok defaultMethodCallInfo, st)

/-- Embedding of `RoutesFrontend.methodFromNameString` (`src/index.ts:853-866`). -/
def methodFromNameString (s : String) : Except Err HttpVerb :=
  if s = "GET" then .ok .GET
  else if s = "HEAD" then .ok .HEAD
  else if s = "POST" then .ok .POST
  else if s = "PUT" then .ok .PUT
  else if s = "DELETE" then .ok .DELETE
  else if s = "CONNECT" then .ok .CONNECT
  else if s = "OPTIONS" then .ok .OPTIONS
  else if s = "TRACE" then .ok .TRACE
  else .error (.invalidHttpMethod s)

/-- Embedding of `RoutesFrontend.findMethodsOnMembers` (`src/index.ts:868-899`): each
qualifying member becomes a RouteMethod; the member's call info is
computed before its name is validated as an HTTP verb. -/
def findMethodsOnMembers (prog : Program) (imap : ImportMap) (fuel : Nat) :
    List TsNode → St → Except Err (List IExportedRouteMethod) × St
  | [], st => (.ok [], st)
  | m :: ms, st =>
    match m with
    | .propertySignature d (some pn) _ mty =>
      match getMemberName pn with
      | .error e => (.error e, st)
      | .ok nm? =>
        match nm?, mty with
        | some nameString, some ty =>
          match findMethodCallInfo prog imap fuel ty st with
          | (.error e, st') => (.error e, st')
          | (.ok info, st') =>
            match methodFromNameString nameString with
            | .error e => (.error e, st')
            | .ok verb =>
              match findMethodsOnMembers prog imap fuel ms st' with
              | (.error e, st'') => (.error e, st'')
              | (.ok rest, st'') =>
                (.ok (⟨d, info.name, verb, info.authorization, info.body,
                  info.params, info.query, info.responses⟩ :: rest), st'')
        | _, _ => findMethodsOnMembers prog imap fuel ms st
    | _ => findMethodsOnMembers prog imap fuel ms st

/-- Embedding of `RoutesFrontend.findMethods` (`src/index.ts:901-924`). -/
def findMethods (prog : Program) (imap : ImportMap) (fuel : Nat) :
    TsNode → St → Except Err (List IExportedRouteMethod) × St
  | .typeAlias _ _ typeParams target, st =>
    if typeParams > 0 then (.error .typeParamsNotImplemented, st)
    else findMethods prog imap fuel target st
  | .interfaceDecl _ _ typeParams _ members, st =>
    if typeParams > 0 then (.error .typeParamsNotImplemented, st)
    else findMethodsOnMembers prog imap fuel members st
  | .typeLiteral _ members, st => findMethodsOnMembers prog imap fuel members st
  | _, st => (.ok [], st)

/-- Embedding of `RoutesFrontend.findRoutes` (`src/index.ts:941-960`): each qualifying
member becomes a Route (kept even when its method list is empty). -/
def findRoutes (prog : Program) (imap : ImportMap) (fuel : Nat) :
    List TsNode → St → Except Err (List IExportedRoute) × St
  | [], st => (.ok [], st)
  | m :: ms, st =>
    match m with
    | .propertySignature d (some pn) _ mty =>
      match getMemberName pn with
      | .error e => (.error e, st)
      | .ok nm? =>
        match nm?, mty with
        | some nameString, some ty =>
          match findMethods prog imap fuel ty st with
          | (.error e, st') => (.error e, st')
          | (.ok methods, st') =>
            match findRoutes prog imap fuel ms st' with
            | (.error e, st'') => (.error e, st'')
            | (.ok rest, st'') => (.ok (⟨d, nameString, methods⟩ :: rest), st'')
        | _, _ => findRoutes prog imap fuel ms st
    | _ => findRoutes prog imap fuel ms st

/-- Embedding of `RoutesFrontend.processRouterNode` (`src/index.ts:962-1010`): build
the Router for a marked declaration, returning `null` when its route scan
yields zero routes, or for a node kind that is not an alias / interface /
type literal. -/
def processRouterNode (prog : Program) (imap : ImportMap) (fuel : Nat)
    (doc : Option String) (base : String) (parentName : Option String) :
    TsNode → St → Except Err (Option IExportedRouter) × St
  | .typeAlias _ nm typeParams target, st =>
    if typeParams > 0 then (.error .typeParamsNotImplemented, st)
    else processRouterNode prog imap fuel doc base (some (parentName.getD nm)) target st
  | .interfaceDecl _ nm typeParams _ members, st =>
    if typeParams > 0 then (.error .typeParamsNotImplemented, st)
    else
      match findRoutes prog imap fuel members st with
      | (.error e, st') => (.error e, st')
      | (.ok routes, st') =>
        if routes.isEmpty then (.ok none, st')
        else (.ok (some ⟨doc, parentName.getD nm, base, routes⟩), st')
  | .typeLiteral _ members, st =>
    match findRoutes prog imap fuel members st with
    | (.error e, st') => (.error e, st')
    | (.ok routes, st') =>
      if routes.isEmpty then (.ok none, st')
      else (.ok (some ⟨doc, parentName.getD base, base, routes⟩), st')
  | _, st => (.ok none, st)

/-! ## Marker annotation (`#ExportRoute("...")`)

`getRouterBase` matches `/#ExportRoute\((".*")\)/` against the
documentation and runs `JSON.parse` on the captured group.  The matcher
below implements that regex's semantics: leftmost match, greedy `.*`
(`.` does not match line terminators), capture group `".*"`. -/

/-- A JS regex line terminator (not matched by `.`). -/
def isLineTerm (c : Char) : Bool :=
  c = '\n' ∨ c = '\r' ∨ c.toNat = 0x2028 ∨ c.toNat = 0x2029

/-- Match a literal character sequence, returning the remainder. -/
def dropLit : List Char → List Char → Option (List Char)
  | [], cs => some cs
  | l :: ls, c :: cs => if c = l then dropLit ls cs else none
  | _ :: _, [] => none

/-- Largest index `k` with `l[k] = '"'` and `l[k+1] = ')'` (the greedy
backtracking point of `.*"\)`). -/
def findLastPair : List Char → Option Nat
  | '"' :: ')' :: rest =>
    match findLastPair (')' :: rest) with
    | some k => some (k + 1)
    | none => some 0
  | _ :: rest => (findLastPair rest).map (· + 1)
  | [] => none

/-- Try the full pattern at the head of `cs`; on success return the
capture group (`".*"`, quotes included) and the full match length. -/
def tryMatchAt (cs : List Char) : Option (List Char × Nat) :=
  match dropLit "#ExportRoute(".data cs with
  | none => none
  | some rest =>
    match rest with
    | '"' :: tail =>
      let run := tail.takeWhile (fun c => !isLineTerm c)
      match findLastPair run with
      | none => none
      | some k => some ('"' :: (tail.take k ++ ['"']), 16 + k)
    | _ => none

/-- Leftmost match: scan every start position in order; return (start
index, capture group, full match length). -/
def scanExportRoute : List Char → Nat → Option (Nat × List Char × Nat)
  | [], _ => none
  | c :: cs, i =>
    match tryMatchAt (c :: cs) with
    | some (cap, len) => some (i, cap, len)
    | none => scanExportRoute cs (i + 1)

/-- The capture group of `/#ExportRoute\((".*")\)/` on a documentation
string, or `none` when the pattern does not match. -/
def matchExportRouteArg (s : String) : Option String :=
  (scanExportRoute s.data 0).map (fun r => String.mk r.2.1)

/-- Hex digit value. -/
def hexVal (c : Char) : Option Nat :=
  if '0' ≤ c ∧ c ≤ '9' then some (c.toNat - 48)
  else if 'a' ≤ c ∧ c ≤ 'f' then some (c.toNat - 87)
  else if 'A' ≤ c ∧ c ≤ 'F' then some (c.toNat - 55)
  else none

/-- Four hex digits. -/
def parseHex4 : List Char → Option (Nat × List Char)
  | a :: b :: c :: d :: rest => do
    let xa ← hexVal a
    let xb ← hexVal b
    let xc ← hexVal c
    let xd ← hexVal d
    some (((xa * 16 + xb) * 16 + xc) * 16 + xd, rest)
  | _ => none

/-- JSON string body after the opening quote, fuel-indexed (the fuel is
set to the input length, which every step strictly decreases).  Returns
the decoded content and the remainder after the closing quote.  JS keeps
lone surrogates in strings; Lean strings hold scalars, so a lone
surrogate decodes to U+FFFD (irrelevant to whether parsing succeeds). -/
def jsonStringChars : Nat → List Char → Option (List Char × List Char)
  | 0, _ => none
  | _, [] => none
  | fuel + 1, c :: rest =>
    if c = '"' then some ([], rest)
    else if c = '\\' then
      match rest with
      | [] => none
      | e :: rest2 =>
        let simple : Option Char :=
          if e = '"' then some '"'
          else if e = '\\' then some '\\'
          else if e = '/' then some '/'
          else if e = 'b' then some (Char.ofNat 8)
          else if e = 'f' then some (Char.ofNat 12)
          else if e = 'n' then some '\n'
          else if e = 'r' then some '\r'
          else if e = 't' then some '\t'
          else none
        match simple with
        | some ch =>
          match jsonStringChars fuel rest2 with
          | some (content, rem) => some (ch :: content, rem)
          | none => none
        | none =>
          if e = 'u' then
            match parseHex4 rest2 with
            | none => none
            | some (n, rest3) =>
              if 0xD800 ≤ n ∧ n ≤ 0xDBFF then
                match rest3 with
                | '\\' :: 'u' :: rest4 =>
                  match parseHex4 rest4 with
                  | some (n2, rest5) =>
                    if 0xDC00 ≤ n2 ∧ n2 ≤ 0xDFFF then
                      let code := 0x10000 + (n - 0xD800) * 0x400 + (n2 - 0xDC00)
                      match jsonStringChars fuel rest5 with
                      | some (content, rem) => some (Char.ofNat code :: content, rem)
                      | none => none
                    else
                      match jsonStringChars fuel ('\\' :: 'u' :: rest4) with
                      | some (content, rem) => some (Char.ofNat 0xFFFD :: content, rem)
                      | none => none
                  | none =>
                    match jsonStringChars fuel rest3 with
                    | some (content, rem) => some (Char.ofNat 0xFFFD :: content, rem)
                    | none => none
                | _ =>
                  match jsonStringChars fuel rest3 with
                  | some (content, rem) => some (Char.ofNat 0xFFFD :: content, rem)
                  | none => none
              else if 0xDC00 ≤ n ∧ n ≤ 0xDFFF then
                match jsonStringChars fuel rest3 with
                | some (content, rem) => some (Char.ofNat 0xFFFD :: content, rem)
                | none => none
              else
                match jsonStringChars fuel rest3 with
                | some (content, rem) => some (Char.ofNat n :: content, rem)
                | none => none
          else none
    else if c.toNat < 0x20 then none
    else
      match jsonStringChars fuel rest with
      | some (content, rem) => some (c :: content, rem)
      | none => none

/-- JSON whitespace. -/
def jsonWs (c : Char) : Bool := c = ' ' ∨ c = '\t' ∨ c = '\n' ∨ c = '\r'

/-- Embedding of `JSON.parse` on the captured group, which always begins with a
double quote: succeeds iff the input is one complete JSON string
(possibly followed by trailing whitespace); any success is a string, so
the source's `typeof s === "string"` check always passes on it. -/
def parseJsonString (s : String) : Option String :=
  match s.data with
  | '"' :: rest =>
    match jsonStringChars (rest.length + 1) rest with
    | some (content, rem) =>
      if (rem.dropWhile jsonWs).isEmpty then some (String.mk content) else none
    | none => none
  | _ => none

/-- Remove `len` characters starting at index `i`. -/
def stripAt (s : String) (i len : Nat) : String :=
  String.mk (s.data.take i ++ s.data.drop (i + len))

/-- JS `String.prototype.trim`: strip whitespace from both ends. -/
def jsTrim (s : String) : String :=
  String.mk (((s.data.dropWhile jsonWs).reverse.dropWhile jsonWs).reverse)

/-- Embedding of `RoutesFrontend.getRouterBase` (`src/index.ts:85-104`): extract the
route base from the marker annotation; on success the marker substring is
stripped from the retained documentation (the source mutates the passed
record, so the updated documentation is returned alongside). -/
def getRouterBase : Option String → Option String × Option String
  | none => (none, none)
  | some documentation =>
    match scanExportRoute documentation.data 0 with
    | none => (none, some documentation)
    | some (i, cap, len) =>
      match parseJsonString (String.mk cap) with
      | none => (none, some documentation)
      | some s => (some s, some (jsTrim (stripAt documentation i len)))

/-- The per-declaration step of `compile` (`src/index.ts:1060-1070`): a
declaration whose documentation yields no router base is skipped; a
marked one is handed to `processRouterNode`. -/
def routerForNode (prog : Program) (imap : ImportMap) (fuel : Nat)
    (node : TsNode) (st : St) : Except Err (Option IExportedRouter) × St :=
  match getRouterBase (getDocumentation node) with
  | (none, _) => (.ok none, st)
  | (some base, doc') => processRouterNode prog imap fuel doc' base none node st

/-! ## Text layout engine (`TextBlock`) -/

/-- A text block: an ordered list of lines plus an indentation amount
(`TextBlock`'s `lines` / `indention` fields). -/
structure TextBlock where
  lines : List String
  indention : Nat
deriving Repr, DecidableEq

/-- Embedding of `TextBlock.EMPTY`. -/
def TextBlock.EMPTY : TextBlock := ⟨[], 0⟩

/-- Embedding of `TextBlock.prototype.width`: indentation plus the maximum line
length (`Math.max(0, ...lengths) + indention`). -/
def TextBlock.width (b : TextBlock) : Nat :=
  (b.lines.map String.length).foldl max 0 + b.indention

/-- Embedding of `TextBlock.prototype.height`. -/
def TextBlock.height (b : TextBlock) : Nat := b.lines.length

/-- Embedding of `TextBlock.prototype.indent`. -/
def TextBlock.indent (b : TextBlock) (amount : Nat) : TextBlock :=
  ⟨b.lines, b.indention + amount⟩

/-- A run of `n` spaces. -/
def spacesStr (n : Nat) : String := String.mk (List.replicate n ' ')

/-- Embedding of `TextBlock.prototype.toIndentStrings`: each line prefixed by the
indentation. -/
def TextBlock.toIndentStrings (b : TextBlock) : List String :=
  b.lines.map (fun line => spacesStr b.indention ++ line)

/-- Embedding of `TextBlock.prototype.toRectString`: indented lines padded on the
right with spaces to the block's width. -/
def TextBlock.toRectString (b : TextBlock) : List String :=
  b.toIndentStrings.map (fun line => line ++ spacesStr (b.width - line.length))

/-- Embedding of `block[0].replace(/./g, " ")`: every character except line
terminators becomes a space (JS `.` does not match line terminators). -/
def blankLike (line : String) : String :=
  String.mk (line.data.map (fun c => if isLineTerm c then c else ' '))

/-- Embedding of `TextBlock.prototype.hcat` (`src` `TextBlock.ts:71-89`), taking the
variadic blocks as a list.  Blocks whose rectangle has zero lines are
filtered out; each remaining rectangle is padded vertically with blank
copies of its first line up to the maximum height; corresponding rows are
then concatenated by a seedless `reduce`, which in JS throws a
`TypeError` when every rectangle was filtered out (`none` here). -/
def TextBlock.hcatL (b : TextBlock) (blocks : List TextBlock) : Option TextBlock :=
  if blocks.isEmpty then some b
  else
    let fullBlocks := (b.toRectString :: blocks.map TextBlock.toRectString).filter
      (fun bl => bl.length > 0)
    let maxHeight := (fullBlocks.map List.length).foldl max b.height
    let padded := fullBlocks.map (fun bl =>
      match bl with
      | [] => []
      | h :: t => (h :: t) ++ List.replicate (maxHeight - (h :: t).length) (blankLike h))
    match padded with
    | [] => none
    | h :: t => some ⟨t.foldl (fun acc bl => acc.zipWith (· ++ ·) bl) h, 0⟩

/-- The static `TextBlock.hcat`, which delegates to
`TextBlock.EMPTY.hcat(...)`. -/
def TextBlock.hcat (blocks : List TextBlock) : Option TextBlock :=
  TextBlock.EMPTY.hcatL blocks

/-- The key-claim reading of `hcat`, written from the specification's
words (for refinement comparison with `TextBlock.hcat`): pad each block's
lines on the right with spaces to that block's own width, pad each block
vertically with blank lines of that block's width up to the maximum
height among all inputs, then concatenate corresponding rows
left-to-right; result indentation 0. -/
def hcatClaimSpec (blocks : List TextBlock) : TextBlock :=
  let m := (blocks.map TextBlock.height).foldl max 0
  let padded := blocks.map (fun b =>
    b.toRectString ++ List.replicate (m - b.height) (spacesStr b.width))
  ⟨padded.foldl (fun acc bl => acc.zipWith (· ++ ·) bl) (List.replicate m ""), 0⟩

/-! ## Characterization helpers (used by theorem statements) -/

/-- The name under which a type-element member lands in an object-member
map: a property signature with a name that `getMemberName` maps to a
string. -/
def memberKeyName : TsNode → Option String
  | .propertySignature _ (some pn) _ _ =>
    match getMemberName pn with
    | .ok (some s) => some s
    | _ => none
  | _ => none

/-- The per-member semantics of the `response` loop, for characterizing a
successful run as a `filterMap`: a member contributes a response exactly
when it is a named property signature whose name text `parseInt`s to an
integer and whose type is present; the `undefined` keyword means an empty
body, anything else the translated type (on a successful run the
translation cannot have failed, so its error branch is vacuous). -/
def respSpec (recur : TsNode → Option String → Bool → St → Except Err Ty × St)
    (st : St) : TsNode → Option IResponse
  | .propertySignature d (some pn) _ (some τ) =>
    match getMemberName pn with
    | .ok (some rc) =>
      match parseIntJs rc with
      | some v =>
        match τ with
        | .undefinedKeyword _ => some ⟨d, v, none⟩
        | _ =>
          match (recur τ none false st).1 with
          | .ok t => some ⟨d, v, some t⟩
          | .error _ => none
      | none => none
    | _ => none
  | _ => none

/-- The per-enum-member translation, for characterizing the enum loop:
an explicit numeric or string literal initializer contributes its value,
a member without initializer its zero-based position. -/
def enumMemberTy (p : Nat × EnumMember) : Ty :=
  match p.2.initializer with
  | some (.numInit v) => .num p.2.documentation none (.lits [v])
  | some (.strInit s) => .str p.2.documentation none (.lits [s])
  | _ => .num p.2.documentation none (.lits [(p.1 : Int)])

/-! ## Helper lemmas -/

theorem lookupAssoc_insert_self {α : Type} (l : List (String × α)) (k : String) (v : α) :
    lookupAssoc (insertAssoc l k v) k = some v := by
  induction l with
  | nil => simp [insertAssoc, lookupAssoc]
  | cons kv rest ih =>
    obtain ⟨k', v'⟩ := kv
    by_cases h : k' = k <;> simp [insertAssoc, lookupAssoc, h, ih]

theorem lookupAssoc_insert_ne {α : Type} (l : List (String × α)) (k k' : String) (v : α)
    (h : k' ≠ k) : lookupAssoc (insertAssoc l k v) k' = lookupAssoc l k' := by
  induction l with
  | nil => simp [insertAssoc, lookupAssoc, Ne.symm h]
  | cons kv rest ih =>
    obtain ⟨k₀, v₀⟩ := kv
    by_cases h0 : k₀ = k
    · subst h0
      simp [insertAssoc, lookupAssoc, Ne.symm h]
    · simp only [insertAssoc, if_neg h0]
      by_cases h1 : k₀ = k' <;> simp [lookupAssoc, h1, ih]

theorem insertAssoc_keys_of_not_mem {α : Type} (l : List (String × α)) (k : String) (v : α)
    (h : k ∉ l.map Prod.fst) :
    (insertAssoc l k v).map Prod.fst = l.map Prod.fst ++ [k] := by
  induction l with
  | nil => simp [insertAssoc]
  | cons kv rest ih =>
    obtain ⟨k₀, v₀⟩ := kv
    simp only [List.map_cons, List.mem_cons] at h
    push_neg at h
    simp [insertAssoc, Ne.symm h.1, ih h.2]

theorem lookupAssoc_eq_none_of_not_mem {α : Type} (l : List (String × α)) (k : String)
    (h : k ∉ l.map Prod.fst) : lookupAssoc l k = none := by
  induction l with
  | nil => simp [lookupAssoc]
  | cons kv rest ih =>
    obtain ⟨k₀, v₀⟩ := kv
    simp only [List.map_cons, List.mem_cons] at h
    push_neg at h
    simp [lookupAssoc, h.1.symm, ih h.2]

theorem spreadMerge_lookup_not_mem (a b : List (String × Ty)) (s : String)
    (h : s ∉ b.map Prod.fst) :
    lookupAssoc (spreadMerge a b) s = lookupAssoc a s := by
  induction b generalizing a with
  | nil => simp [spreadMerge]
  | cons kv rest ih =>
    obtain ⟨k₀, v₀⟩ := kv
    simp only [List.map_cons, List.mem_cons] at h
    push_neg at h
    show lookupAssoc (spreadMerge (insertAssoc a k₀ v₀) rest) s = _
    rw [ih (insertAssoc a k₀ v₀) h.2, lookupAssoc_insert_ne _ _ _ _ h.1]

theorem spreadMerge_lookup_mem (a b : List (String × Ty)) (s : String)
    (hnd : (b.map Prod.fst).Nodup) (h : s ∈ b.map Prod.fst) :
    lookupAssoc (spreadMerge a b) s = lookupAssoc b s := by
  induction b generalizing a with
  | nil => simp at h
  | cons kv rest ih =>
    obtain ⟨k₀, v₀⟩ := kv
    simp only [List.map_cons, List.nodup_cons] at hnd
    simp only [List.map_cons, List.mem_cons] at h
    show lookupAssoc (spreadMerge (insertAssoc a k₀ v₀) rest) s = _
    rcases h with h | h
    · subst h
      rw [spreadMerge_lookup_not_mem _ _ _ hnd.1, lookupAssoc_insert_self]
      simp [lookupAssoc]
    · have hne : s ≠ k₀ := by
        rintro rfl
        exact hnd.1 h
      rw [ih _ hnd.2 h]
      simp [lookupAssoc, Ne.symm hne]

theorem interStep_mem (acc s : Lits String) (x : String) :
    Lits.Mem x (interStep acc s) ↔ (Lits.Mem x acc ∧ Lits.Mem x s) := by
  cases s with
  | all => simp [interStep, Lits.Mem]
  | lits ss =>
    cases acc with
    | all => simp [interStep, Lits.Mem]
    | lits as => simp [interStep, Lits.Mem, List.mem_filter]

theorem unionStep_mem (acc s : Lits String) (x : String) :
    Lits.Mem x (unionStep acc s) ↔ (Lits.Mem x acc ∨ Lits.Mem x s) := by
  cases s with
  | all => simp [unionStep, Lits.Mem]
  | lits ss =>
    cases acc with
    | all => simp [unionStep, Lits.Mem]
    | lits as =>
      simp only [unionStep, Lits.Mem, List.mem_append, List.mem_filter]
      constructor
      · rintro (h | ⟨h, -⟩)
        · exact Or.inl h
        · exact Or.inr h
      · rintro (h | h)
        · exact Or.inl h
        · by_cases ha : x ∈ as
          · exact Or.inl ha
          · exact Or.inr ⟨h, by simpa using ha⟩

theorem interFold_mem_aux (ss : List (Lits String)) :
    ∀ (acc : Lits String) (x : String),
      Lits.Mem x (ss.foldl interStep acc) ↔ (Lits.Mem x acc ∧ ∀ s ∈ ss, Lits.Mem x s) := by
  induction ss with
  | nil => simp
  | cons s rest ih =>
    intro acc x
    simp only [List.foldl_cons, ih (interStep acc s) x, interStep_mem, List.mem_cons]
    constructor
    · rintro ⟨⟨h1, h2⟩, h3⟩
      exact ⟨h1, fun t ht => by
        rcases ht with rfl | ht
        · exact h2
        · exact h3 t ht⟩
    · rintro ⟨h1, h2⟩
      exact ⟨⟨h1, h2 s (Or.inl rfl)⟩, fun t ht => h2 t (Or.inr ht)⟩

theorem interFold_mem (ss : List (Lits String)) (x : String) :
    Lits.Mem x (interFold ss) ↔ ∀ s ∈ ss, Lits.Mem x s := by
  rw [interFold, interFold_mem_aux]
  simp [Lits.Mem]

theorem unionFold_mem_aux (ss : List (Lits String)) :
    ∀ (acc : Lits String) (x : String),
      Lits.Mem x (ss.foldl unionStep acc) ↔ (Lits.Mem x acc ∨ ∃ s ∈ ss, Lits.Mem x s) := by
  induction ss with
  | nil => simp
  | cons s rest ih =>
    intro acc x
    simp only [List.foldl_cons, ih (unionStep acc s) x, unionStep_mem, List.mem_cons]
    constructor
    · rintro ((h | h) | ⟨t, ht, hm⟩)
      · exact Or.inl h
      · exact Or.inr ⟨s, Or.inl rfl, h⟩
      · exact Or.inr ⟨t, Or.inr ht, hm⟩
    · rintro (h | ⟨t, rfl | ht, hm⟩)
      · exact Or.inl (Or.inl h)
      · exact Or.inl (Or.inr hm)
      · exact Or.inr ⟨t, ht, hm⟩

theorem unionFold_mem (ss : List (Lits String)) (x : String) :
    Lits.Mem x (unionFold ss) ↔ ∃ s ∈ ss, Lits.Mem x s := by
  rw [unionFold, unionFold_mem_aux]
  simp [Lits.Mem]

theorem interStep_eq_all (acc s : Lits String) :
    interStep acc s = .all ↔ (acc = .all ∧ s = .all) := by
  cases s <;> cases acc <;> simp [interStep]

theorem unionStep_eq_all (acc s : Lits String) :
    unionStep acc s = .all ↔ (acc = .all ∨ s = .all) := by
  cases s <;> cases acc <;> simp [unionStep]

theorem interFold_eq_all_aux (ss : List (Lits String)) :
    ∀ acc : Lits String, ss.foldl interStep acc = .all ↔ (acc = .all ∧ ∀ s ∈ ss, s = .all) := by
  induction ss with
  | nil => simp
  | cons s rest ih =>
    intro acc
    simp only [List.foldl_cons, ih (interStep acc s), interStep_eq_all, List.mem_cons]
    constructor
    · rintro ⟨⟨h1, h2⟩, h3⟩
      exact ⟨h1, fun t ht => by
        rcases ht with rfl | ht
        · exact h2
        · exact h3 t ht⟩
    · rintro ⟨h1, h2⟩
      exact ⟨⟨h1, h2 s (Or.inl rfl)⟩, fun t ht => h2 t (Or.inr ht)⟩

theorem interFold_eq_all (ss : List (Lits String)) :
    interFold ss = .all ↔ ∀ s ∈ ss, s = .all := by
  rw [interFold, interFold_eq_all_aux]
  simp

theorem unionFold_eq_all_aux (ss : List (Lits String)) :
    ∀ acc : Lits String, ss.foldl unionStep acc = .all ↔ (acc = .all ∨ ∃ s ∈ ss, s = .all) := by
  induction ss with
  | nil => simp
  | cons s rest ih =>
    intro acc
    simp only [List.foldl_cons, ih (unionStep acc s), unionStep_eq_all, List.mem_cons]
    constructor
    · rintro ((h | h) | ⟨t, ht, rfl⟩)
      · exact Or.inl h
      · exact Or.inr ⟨s, Or.inl rfl, h⟩
      · exact Or.inr ⟨.all, Or.inr ht, rfl⟩
    · rintro (h | ⟨t, rfl | ht, rfl⟩)
      · exact Or.inl (Or.inl h)
      · exact Or.inl (Or.inr rfl)
      · exact Or.inr ⟨.all, ht, rfl⟩

theorem unionFold_eq_all (ss : List (Lits String)) :
    unionFold ss = .all ↔ ∃ s ∈ ss, s = .all := by
  rw [unionFold, unionFold_eq_all_aux]
  simp

/-- Any `recur` that preserves the context makes `parseList` preserve
it. -/
theorem parseList_preserves (recur : TsNode → Option String → Bool → St → Except Err Ty × St)
    (hrec : ∀ n nm k s, (recur n nm k s).2 = s) (k : Bool) :
    ∀ (l : List TsNode) (st : St), (parseList recur k l st).2 = st := by
  intro l
  induction l with
  | nil => intro st; rfl
  | cons n ns ih =>
    intro st
    have e1 := hrec n none k st
    simp only [parseList]
    rcases h1 : recur n none k st with ⟨r1, st1⟩
    rw [h1] at e1
    cases r1 with
    | error e => simpa using e1
    | ok t =>
      have e2 := ih st1
      rcases h2 : parseList recur k ns st1 with ⟨r2, st2⟩
      rw [h2] at e2
      cases r2 <;> simp_all

theorem parseObjectMembers_preserves
    (recur : TsNode → Option String → Bool → St → Except Err Ty × St)
    (hrec : ∀ n nm k s, (recur n nm k s).2 = s) (k : Bool) :
    ∀ (ms : List TsNode) (acc : List (String × Ty)) (st : St),
      (parseObjectMembers recur k ms acc st).2 = st := by
  intro ms
  induction ms with
  | nil => intro acc st; rfl
  | cons m rest ih =>
    intro acc st
    rcases m with _ | _ | _ | _ | _ | _ | _ | ⟨_, _⟩ | ⟨_, _⟩ | ⟨_, _⟩ | ⟨_, _⟩ | ⟨_, _⟩ |
      ⟨_, _, _⟩ | ⟨_, _⟩ | ⟨_, _, _, _, _⟩ | ⟨_, _, _⟩ | ⟨_, _⟩ | ⟨_, _⟩ | ⟨_, _, _, _⟩ |
      ⟨mdoc, pn?, q, mty⟩ | ⟨_, _⟩ | ⟨_, _⟩ | ⟨_, _⟩ | ⟨_, _⟩ | ⟨_, _⟩ | ⟨_, _⟩ | ⟨_, _⟩ |
      ⟨_, _⟩ | ⟨_, _⟩ | ⟨_, _⟩ | _ <;>
      try (exact ih acc st)
    -- propertySignature case
    rcases pn? with _ | pn
    · exact ih acc st
    · rcases mty with _ | τ
      · simp only [parseObjectMembers]
        split
        · rfl
        · exact ih acc st
        · rfl
      · simp only [parseObjectMembers]
        split
        · rfl
        · exact ih acc st
        · split
          · rename_i e st1 heq2
            have e1 := hrec τ none k st
            rw [heq2] at e1
            simpa using e1
          · rename_i t st1 heq2
            have e1 := hrec τ none k st
            rw [heq2] at e1
            simp only at e1
            rw [e1]
            exact ih _ st

theorem parseHeritageTypes_preserves
    (recur : TsNode → Option String → Bool → St → Except Err Ty × St)
    (hrec : ∀ n nm k s, (recur n nm k s).2 = s) (k : Bool) :
    ∀ (pts : List TsNode) (oms : List (String × Ty)) (st : St),
      (parseHeritageTypes recur k pts oms st).2 = st := by
  intro pts
  induction pts with
  | nil => intro oms st; rfl
  | cons pt rest ih =>
    intro oms st
    simp only [parseHeritageTypes]
    split
    · rename_i e st1 heq
      have e1 := hrec pt none k st
      rw [heq] at e1
      simpa using e1
    · rename_i parsed st1 heq
      have e1 := hrec pt none k st
      rw [heq] at e1
      simp only at e1
      rw [e1]
      exact ih _ st

theorem parseHeritage_preserves
    (recur : TsNode → Option String → Bool → St → Except Err Ty × St)
    (hrec : ∀ n nm k s, (recur n nm k s).2 = s) (k : Bool) :
    ∀ (clauses : List (List TsNode)) (oms : List (String × Ty)) (st : St),
      (parseHeritage recur k clauses oms st).2 = st := by
  intro clauses
  induction clauses with
  | nil => intro oms st; rfl
  | cons clause rest ih =>
    intro oms st
    simp only [parseHeritage]
    split
    · rename_i e st1 heq
      have e1 := parseHeritageTypes_preserves recur hrec k clause oms st
      rw [heq] at e1
      simpa using e1
    · rename_i oms' st1 heq
      have e1 := parseHeritageTypes_preserves recur hrec k clause oms st
      rw [heq] at e1
      simp only at e1
      rw [e1]
      exact ih _ st

/-- The central frame property: `parseType` leaves the resolution context
exactly as it found it, on success and on every error path. -/
theorem parseType_preserves (prog : Program) (imap : ImportMap) :
    ∀ (f : Nat) (n : TsNode) (nm : Option String) (k : Bool) (st : St),
      (parseType prog imap f n nm k st).2 = st := by
  intro f
  induction f with
  | zero => intro n nm k st; rfl
  | succ f ih =>
    intro n nm k st
    cases n with
    | booleanKeyword d => rfl
    | numberKeyword d => rfl
    | stringKeyword d => rfl
    | objectKeyword d => rfl
    | nullKeyword d => rfl
    | undefinedKeyword d => rfl
    | functionType d => cases k <;> rfl
    | arrayType d elem =>
      have e1 := ih elem none k st
      rcases h1 : parseType prog imap f elem none k st with ⟨r1, st1⟩
      rw [h1] at e1
      simp only [parseType]
      rw [h1]
      cases r1 <;> simpa using e1
    | literalType d lit => cases lit <;> rfl
    | tupleType d elems =>
      have e1 := parseList_preserves _ ih k elems st
      rcases h1 : parseList (parseType prog imap f) k elems st with ⟨r1, st1⟩
      rw [h1] at e1
      simp only [parseType]
      rw [h1]
      cases r1 <;> simpa using e1
    | typeReference d tn =>
      rcases hl : lookupEntity prog imap st tn with e | r
      · simp only [parseType]
        rw [hl]
      · rcases r with _ | ⟨newModule, newSourceFile, newType⟩
        · simp only [parseType]
          rw [hl]
        · have e1 := ih newType (some (nm.getD (showEntityName tn))) k
            ⟨some newModule, some newSourceFile⟩
          rcases h1 : parseType prog imap f newType (some (nm.getD (showEntityName tn))) k
              ⟨some newModule, some newSourceFile⟩ with ⟨r1, st1⟩
          rw [h1] at e1
          simp only [parseType]
          rw [hl]
          show (match
              (match parseType prog imap f newType (some (nm.getD (showEntityName tn))) k
                  ⟨some newModule, some newSourceFile⟩ with
                | (r, st2) => some (r, setCurrentModule st.currentModule st.currentSourceFile st2))
              with
            | none => (Except.error (mkUnhandled st), st)
            | some (Except.error e, st') => (Except.error (wrapCtx st' e), st')
            | some (Except.ok t, st') => (Except.ok t, st')).2 = st
          rw [h1]
          cases r1 <;> simp [setCurrentModule]
    | exprWithTypeArgs d ex =>
      rcases ex with _ | identifier
      · rfl
      · rcases hl : lookupIdentifier prog imap st identifier with _ | ⟨newModule, newSourceFile, newType⟩
        · simp only [parseType]
          rw [hl]
        · have e1 := ih newType (some (nm.getD identifier)) k
            ⟨some newModule, some newSourceFile⟩
          rcases h1 : parseType prog imap f newType (some (nm.getD identifier)) k
              ⟨some newModule, some newSourceFile⟩ with ⟨r1, st1⟩
          rw [h1] at e1
          simp only [parseType]
          rw [hl]
          show (match
              (match parseType prog imap f newType (some (nm.getD identifier)) k
                  ⟨some newModule, some newSourceFile⟩ with
                | (r, st2) => some (r, setCurrentModule st.currentModule st.currentSourceFile st2))
              with
            | none => (Except.error (mkUnhandled st), st)
            | some (Except.error e, st') => (Except.error (wrapCtx st' e), st')
            | some (Except.ok t, st') => (Except.ok t, st')).2 = st
          rw [h1]
          cases r1 <;> simp [setCurrentModule]
    | typeOperator d op inner =>
      cases op with
      | false => rfl
      | true =>
        have e1 := ih inner none true st
        rcases h1 : parseType prog imap f inner none true st with ⟨r1, st1⟩
        rw [h1] at e1
        simp only [parseType]
        rw [h1]
        simp only at e1
        cases r1 with
        | error e => simpa using e1
        | ok t =>
          rcases hk : performKeyOf t with e | sr <;> simp [hk, e1]
    | typeLiteral d ms =>
      have e1 := parseObjectMembers_preserves _ ih k ms [] st
      rcases h1 : parseObjectMembers (parseType prog imap f) k ms [] st with ⟨r1, st1⟩
      rw [h1] at e1
      simp only [parseType]
      rw [h1]
      cases r1 <;> simpa using e1
    | interfaceDecl d name tp hs ms =>
      have e1 := parseObjectMembers_preserves _ ih k ms [] st
      rcases h1 : parseObjectMembers (parseType prog imap f) k ms [] st with ⟨r1, st1⟩
      rw [h1] at e1
      simp only at e1
      simp only [parseType]
      rw [h1]
      cases r1 with
      | error e => simpa using e1
      | ok own =>
        rw [e1]
        have e2 := parseHeritage_preserves _ ih k hs own st
        rcases h2 : parseHeritage (parseType prog imap f) k hs own st with ⟨r2, st2⟩
        rw [h2] at e2
        simp only [h2]
        cases r2 <;> simpa using e2
    | enumDecl d name ms =>
      simp only [parseType]
      cases enumMembersLoop ms 0 <;> rfl
    | unionType d ts =>
      have e1 := parseList_preserves _ ih k ts st
      rcases h1 : parseList (parseType prog imap f) k ts st with ⟨r1, st1⟩
      rw [h1] at e1
      simp only [parseType]
      rw [h1]
      cases r1 <;> simpa using e1
    | intersectionType d ts =>
      have e1 := parseList_preserves _ ih k ts st
      rcases h1 : parseList (parseType prog imap f) k ts st with ⟨r1, st1⟩
      rw [h1] at e1
      simp only [parseType]
      rw [h1]
      cases r1 <;> simpa using e1
    | typeAlias d an tp target =>
      by_cases htp : tp > 0
      · simp [parseType, htp]
      · have e1 := ih target (some (nm.getD an)) k st
        rcases h1 : parseType prog imap f target (some (nm.getD an)) k st with ⟨r1, st1⟩
        rw [h1] at e1
        simp only [parseType, if_neg htp]
        rw [h1]
        cases r1 <;> simpa using e1
    | propertySignature d pn q t => rfl
    | varDecl d name => rfl
    | varDeclList d decls => rfl
    | functionDecl d name => rfl
    | classDecl d name => rfl
    | namespaceExport d name => rfl
    | objectLiteral d props => rfl
    | propAssignment d name => rfl
    | shorthandAssignment d name => rfl
    | methodDecl d name => rfl
    | accessorDecl d name => rfl
    | otherNode d => rfl

theorem enumMembersLoop_spec :
    ∀ (ms : List EnumMember) (c : Nat),
      (∀ m ∈ ms, m.initializer ≠ some .otherInit) →
      enumMembersLoop ms c = .ok ((ms.enumFrom c).map enumMemberTy) := by
  intro ms
  induction ms with
  | nil => intro c _; rfl
  | cons m rest ih =>
    intro c h
    have hm := h m (List.mem_cons_self m rest)
    have hrest : ∀ m' ∈ rest, m'.initializer ≠ some .otherInit :=
      fun m' hm' => h m' (List.mem_cons_of_mem m hm')
    rcases hi : m.initializer with _ | init
    · simp only [enumMembersLoop, hi, ih (c + 1) hrest, List.enumFrom_cons, List.map_cons,
        enumMemberTy]
    · cases init with
      | numInit v =>
        simp only [enumMembersLoop, hi, ih (c + 1) hrest, List.enumFrom_cons, List.map_cons,
          enumMemberTy]
      | strInit s =>
        simp only [enumMembersLoop, hi, ih (c + 1) hrest, List.enumFrom_cons, List.map_cons,
          enumMemberTy]
      | otherInit => exact absurd hi hm

/-! ## Claim theorems -/

/-- C9: while translating a resolved type reference living in another
module, the resolution context is switched only for the duration of the
recursive translation: `parseType` returns (or throws) with the context
exactly as it found it, on every return path. -/
theorem C9_context_switch_restored (prog : Program) (imap : ImportMap)
    (f : Nat) (n : TsNode) (nm : Option String) (k : Bool) (st : St) :
    (parseType prog imap f n nm k st).2 = st :=
  parseType_preserves prog imap f n nm k st

/-- C1: `performKeyOf` maps an Object to the set of its member names; an
Intersection to the set-intersection of its operands' key sets ("all
strings" operands are absorbed, an all-"all" list stays "all"); a Union
to the set-union ("all strings" collapses the result); and every other
variant is a hard failure.  In particular `keyof` of
`Intersection[Object{a,b,c}, Object{b,c,d}]` is `{b,c}` and of their
`Union` is `{a,b,c,d}`. -/
theorem C1_performKeyOf_key_sets :
    (∀ d n ms, performKeyOf (.obj d n ms) = .ok ⟨d, n, .lits (ms.map Prod.fst)⟩)
    ∧ (∀ d n ts ss, keyOfStrings ts = .ok ss →
        performKeyOf (.inter d n ts) = .ok ⟨d, n, interFold ss⟩
        ∧ (∀ x, Lits.Mem x (interFold ss) ↔ ∀ s ∈ ss, Lits.Mem x s)
        ∧ (interFold ss = .all ↔ ∀ s ∈ ss, s = .all))
    ∧ (∀ d n ts ss, keyOfStrings ts = .ok ss →
        performKeyOf (.union d n ts) = .ok ⟨d, n, unionFold ss⟩
        ∧ (∀ x, Lits.Mem x (unionFold ss) ↔ ∃ s ∈ ss, Lits.Mem x s)
        ∧ (unionFold ss = .all ↔ ∃ s ∈ ss, s = .all))
    ∧ (∀ d n l, performKeyOf (.num d n l) = .error .keyofFailed)
    ∧ (∀ d n l, performKeyOf (.bool d n l) = .error .keyofFailed)
    ∧ (∀ d n l, performKeyOf (.str d n l) = .error .keyofFailed)
    ∧ (∀ d n vs, performKeyOf (.enum d n vs) = .error .keyofFailed)
    ∧ (∀ d n e, performKeyOf (.arr d n e) = .error .keyofFailed)
    ∧ (∀ d n l, performKeyOf (.tuple d n l) = .error .keyofFailed)
    ∧ (∀ d, performKeyOf (.nullT d) = .error .keyofFailed)
    ∧ (∀ d, performKeyOf (.undefT d) = .error .keyofFailed)
    ∧ performKeyOf (.inter none none
        [.obj none none [("a", .undefT none), ("b", .undefT none), ("c", .undefT none)],
         .obj none none [("b", .undefT none), ("c", .undefT none), ("d", .undefT none)]])
      = .ok ⟨none, none, .lits ["b", "c"]⟩
    ∧ performKeyOf (.union none none
        [.obj none none [("a", .undefT none), ("b", .undefT none), ("c", .undefT none)],
         .obj none none [("b", .undefT none), ("c", .undefT none), ("d", .undefT none)]])
      = .ok ⟨none, none, .lits ["a", "b", "c", "d"]⟩ := by
  refine ⟨fun d n ms => rfl, ?_, ?_, fun d n l => rfl, fun d n l => rfl, fun d n l => rfl,
    fun d n vs => rfl, fun d n e => rfl, fun d n l => rfl, fun d => rfl, fun d => rfl,
    rfl, rfl⟩
  · intro d n ts ss h
    refine ⟨?_, interFold_mem ss, interFold_eq_all ss⟩
    simp only [performKeyOf, h]
    rfl
  · intro d n ts ss h
    refine ⟨?_, unionFold_mem ss, unionFold_eq_all ss⟩
    simp only [performKeyOf, h]
    rfl

/-- Witness for C1: the intersection conjunct applied to the concrete
operand list `[Object{a,b,c}, Object{b,c,d}]`. -/
theorem C1_performKeyOf_key_sets_witness :
    performKeyOf (.inter (some "doc") none
        [.obj none none [("a", .undefT none), ("b", .undefT none), ("c", .undefT none)],
         .obj none none [("b", .undefT none), ("c", .undefT none), ("d", .undefT none)]])
      = .ok ⟨some "doc", none,
          interFold [.lits ["a", "b", "c"], .lits ["b", "c", "d"]]⟩ :=
  (C1_performKeyOf_key_sets.2.1 (some "doc") none
    [.obj none none [("a", .undefT none), ("b", .undefT none), ("c", .undefT none)],
     .obj none none [("b", .undefT none), ("c", .undefT none), ("d", .undefT none)]]
    [.lits ["a", "b", "c"], .lits ["b", "c", "d"]] rfl).1

/-- C6: an enum declaration translates to a Union with one literal
variant per member in declaration order; explicit numeric / string
literal initializers contribute their value, an uninitialized member its
zero-based position, with the position counter advancing for every
member.  `enum {A, B = "b", C}` becomes the literals `[0, "b", 2]`. -/
theorem C6_enum_literal_inference :
    (∀ (prog : Program) (imap : ImportMap) (f : Nat) (d : Option String) (en : String)
       (ms : List EnumMember) (name : Option String) (k : Bool) (st : St),
       (∀ m ∈ ms, m.initializer ≠ some .otherInit) →
       parseType prog imap (f + 1) (.enumDecl d en ms) name k st
         = (.ok (.union d name ((ms.enumFrom 0).map enumMemberTy)), st))
    ∧ parseType emptyProgram emptyImports 1
        (.enumDecl none "E" [⟨none, none⟩, ⟨none, some (.strInit "b")⟩, ⟨none, none⟩])
        none false st0
      = (.ok (.union none none
          [.num none none (.lits [0]), .str none none (.lits ["b"]),
           .num none none (.lits [2])]), st0) := by
  constructor
  · intro prog imap f d en ms name k st h
    simp only [parseType, enumMembersLoop_spec ms 0 h]
  · rfl

/-- Witness for C6: the general conjunct applied to the concrete enum
`{A, B = "b", C}`. -/
theorem C6_enum_literal_inference_witness :
    parseType emptyProgram emptyImports 4
        (.enumDecl none "E" [⟨none, none⟩, ⟨none, some (.strInit "b")⟩, ⟨none, none⟩])
        none false st0
      = (.ok (.union none none
          (([⟨none, none⟩, ⟨none, some (.strInit "b")⟩,
             (⟨none, none⟩ : EnumMember)].enumFrom 0).map enumMemberTy)), st0) :=
  C6_enum_literal_inference.1 emptyProgram emptyImports 3 none "E"
    [⟨none, none⟩, ⟨none, some (.strInit "b")⟩, ⟨none, none⟩] none false st0
    (by decide)

/-- C4 counterexample: in keyof-mode a plain function type does NOT
degrade to an empty-member Object — the value returned is an empty
Intersection, which fails the source's own `"objectMembers" in type`
test. -/
theorem C4_function_type_counterexample :
    (parseType emptyProgram emptyImports 1 (.functionType none) none true st0).1
      = .ok (.inter none none [])
    ∧ Ty.hasObjectMembers (.inter none none []) = false :=
  ⟨rfl, rfl⟩

/-- C4 (amended): with keyof-mode enabled, translating a plain function
type succeeds and degrades to an empty `Intersection` (whose key set
computes to "all strings", so it never narrows an enclosing
intersection); outside keyof-mode a bare function type is a hard failure
(`badType`, wrapped by the translator's error context). -/
theorem C4_function_type_keyof_mode :
    (∀ (prog : Program) (imap : ImportMap) (f : Nat) (d : Option String)
       (nm : Option String) (st : St),
       parseType prog imap (f + 1) (.functionType d) nm true st
         = (.ok (.inter none none []), st))
    ∧ performKeyOf (.inter none none []) = .ok ⟨none, none, .all⟩
    ∧ (∀ (prog : Program) (imap : ImportMap) (f : Nat) (d : Option String)
       (nm : Option String) (st : St), st.currentSourceFile.isSome →
       parseType prog imap (f + 1) (.functionType d) nm false st
         = (.error (.withContext .badType), st)) := by
  refine ⟨fun prog imap f d nm st => rfl, rfl, ?_⟩
  intro prog imap f d nm st h
  simp only [parseType, mkBadType, wrapCtx, Option.isNone_iff_eq_none]
  rcases st with ⟨cm, csf⟩
  rcases csf with _ | sf
  · simp at h
  · simp

/-- Witness for C4: the hard-failure conjunct applied at a concrete
context with a source file set. -/
theorem C4_function_type_keyof_mode_witness :
    parseType emptyProgram emptyImports 1 (.functionType none) none false st0
      = (.error (.withContext .badType), st0) :=
  C4_function_type_keyof_mode.2.2 emptyProgram emptyImports 0 none none st0 rfl

/-- C10: a `name` member whose type does not translate to a finite
string-literal set is silently ignored — the method record keeps the
default display name "UNNAMED" and no error is raised. -/
theorem C10_name_member_ignored
    (prog : Program) (imap : ImportMap) (f : Nat) (mdoc : Option String)
    (q : Bool) (τ : TsNode) (st : St) (t : Ty) (st' : St)
    (hp : parseType prog imap f τ none false st = (.ok t, st'))
    (hns : ∀ d n ss, t ≠ .str d n (.lits ss)) :
    findMethodCallInfoOnMembers (parseType prog imap f)
      [.propertySignature mdoc (some (.identName "name")) q (some τ)]
      defaultMethodCallInfo st = (.ok defaultMethodCallInfo, st')
    ∧ defaultMethodCallInfo.name = "UNNAMED" := by
  refine ⟨?_, rfl⟩
  simp only [findMethodCallInfoOnMembers, getMemberName]
  norm_num only
  rw [hp]
  cases t with
  | str d n ss =>
    cases ss with
    | all => rfl
    | lits xs => exact absurd rfl (hns d n xs)
  | num d n l => rfl
  | bool d n l => rfl
  | enum d n vs => rfl
  | arr d n e => rfl
  | tuple d n l => rfl
  | obj d n ms => rfl
  | nullT d => rfl
  | undefT d => rfl
  | union d n l => rfl
  | inter d n l => rfl

/-- Witness for C10: the bare `string` keyword translates to the
"all strings" variant, so a `name: string` member is ignored. -/
theorem C10_name_member_ignored_witness :
    findMethodCallInfoOnMembers (parseType emptyProgram emptyImports 1)
      [.propertySignature none (some (.identName "name")) false
        (some (.stringKeyword none))]
      defaultMethodCallInfo st0 = (.ok defaultMethodCallInfo, st0)
    ∧ defaultMethodCallInfo.name = "UNNAMED" :=
  C10_name_member_ignored emptyProgram emptyImports 1 none false
    (.stringKeyword none) st0 (.str none none .all) st0 rfl
    (fun d n ss h => by cases h)

/-- C8: a declaration whose documentation lacks a `#ExportRoute("...")`
marker, or whose marker argument fails to parse as a JSON string, yields
no router base and is skipped; and a marked declaration whose route scan
yields zero routes produces no Router either. -/
theorem C8_router_null_paths :
    getRouterBase none = (none, none)
    ∧ (∀ doc : String, scanExportRoute doc.data 0 = none →
        getRouterBase (some doc) = (none, some doc))
    ∧ (∀ (doc : String) (i : Nat) (cap : List Char) (len : Nat),
        scanExportRoute doc.data 0 = some (i, cap, len) →
        parseJsonString (String.mk cap) = none →
        getRouterBase (some doc) = (none, some doc))
    ∧ (∀ (prog : Program) (imap : ImportMap) (f : Nat) (node : TsNode) (st : St),
        (getRouterBase (getDocumentation node)).1 = none →
        routerForNode prog imap f node st = (.ok none, st))
    ∧ (∀ (prog : Program) (imap : ImportMap) (f : Nat) (d : Option String) (nm : String)
        (hs : List (List TsNode)) (ms : List TsNode) (st st' : St)
        (doc : Option String) (base : String) (pn : Option String),
        findRoutes prog imap f ms st = (.ok [], st') →
        processRouterNode prog imap f doc base pn (.interfaceDecl d nm 0 hs ms) st
          = (.ok none, st'))
    ∧ (∀ (prog : Program) (imap : ImportMap) (f : Nat) (d : Option String)
        (ms : List TsNode) (st st' : St)
        (doc : Option String) (base : String) (pn : Option String),
        findRoutes prog imap f ms st = (.ok [], st') →
        processRouterNode prog imap f doc base pn (.typeLiteral d ms) st
          = (.ok none, st')) := by
  refine ⟨rfl, ?_, ?_, ?_, ?_, ?_⟩
  · intro doc h
    simp [getRouterBase, h]
  · intro doc i cap len h hj
    simp [getRouterBase, h, hj]
  · intro prog imap f node st h
    rcases hg : getRouterBase (getDocumentation node) with ⟨b, doc'⟩
    rw [hg] at h
    simp only at h
    subst h
    simp [routerForNode, hg]
  · intro prog imap f d nm hs ms st st' doc base pn h
    simp [processRouterNode, h]
  · intro prog imap f d ms st st' doc base pn h
    simp [processRouterNode, h]

/-- Witness for C8: a documentation string without a marker, one whose
marker argument is not a valid JSON string, and an interface whose route
scan is empty, each yield no Router. -/
theorem C8_router_null_paths_witness :
    getRouterBase (some "no marker here") = (none, some "no marker here")
    ∧ getRouterBase (some "x #ExportRoute(\"a\"b\") y")
        = (none, some "x #ExportRoute(\"a\"b\") y")
    ∧ routerForNode emptyProgram emptyImports 1 (.interfaceDecl none "R" 0 [] []) st0
        = (.ok none, st0)
    ∧ processRouterNode emptyProgram emptyImports 1 none "/api" none
        (.interfaceDecl none "R" 0 [] []) st0 = (.ok none, st0) :=
  ⟨C8_router_null_paths.2.1 "no marker here" rfl,
   C8_router_null_paths.2.2.1 "x #ExportRoute(\"a\"b\") y" 2
     ['"', 'a', '"', 'b', '"'] 19 rfl rfl,
   C8_router_null_paths.2.2.2.1 emptyProgram emptyImports 1
     (.interfaceDecl none "R" 0 [] []) st0 rfl,
   C8_router_null_paths.2.2.2.2.1 emptyProgram emptyImports 1 none "R" [] [] st0 st0
     none "/api" none rfl⟩

/-- Members that are not property signatures are skipped by the member
loop. -/
theorem parseObjectMembers_cons_notprop
    (recur : TsNode → Option String → Bool → St → Except Err Ty × St) (k : Bool)
    (rest : List TsNode) (acc : List (String × Ty)) (st : St) (m : TsNode)
    (h : ∀ mdoc pn? q mty, m ≠ TsNode.propertySignature mdoc pn? q mty) :
    parseObjectMembers recur k (m :: rest) acc st = parseObjectMembers recur k rest acc st := by
  cases m <;> first | rfl | exact absurd rfl (h _ _ _ _)

/-- Members that are not property signatures have no key. -/
theorem memberKeyName_notprop (m : TsNode)
    (h : ∀ mdoc pn? q mty, m ≠ TsNode.propertySignature mdoc pn? q mty) :
    memberKeyName m = none := by
  cases m <;> first | rfl | exact absurd rfl (h _ _ _ _)

/-- Keys not named by any remaining member are untouched by the member
loop. -/
theorem parseObjectMembers_lookup_stable
    (recur : TsNode → Option String → Bool → St → Except Err Ty × St)
    (hrec : ∀ n nm k s, (recur n nm k s).2 = s) (k : Bool) :
    ∀ (ms : List TsNode) (acc : List (String × Ty)) (st : St)
      (oms : List (String × Ty)) (st' : St),
      parseObjectMembers recur k ms acc st = (.ok oms, st') →
      ∀ s, s ∉ ms.filterMap memberKeyName → lookupAssoc oms s = lookupAssoc acc s := by
  intro ms
  induction ms with
  | nil =>
    intro acc st oms st' h s _
    simp only [parseObjectMembers] at h
    cases h
    rfl
  | cons m rest ih =>
    intro acc st oms st' h s hs
    by_cases hp : ∃ mdoc pn? q mty, m = TsNode.propertySignature mdoc pn? q mty
    · obtain ⟨mdoc, pn?, q, mty, rfl⟩ := hp
      rcases pn? with _ | pn
      · simp only [parseObjectMembers] at h
        exact ih acc st oms st' h s (by simpa [memberKeyName] using hs)
      · rcases hn : getMemberName pn with e | nm?
        · rw [show parseObjectMembers recur k
            (TsNode.propertySignature mdoc (some pn) q mty :: rest) acc st
            = (.error e, st) from by simp [parseObjectMembers, hn]] at h
          cases h
        · rcases nm? with _ | s0
          · refine ih acc st oms st' ?_ s ?_
            · rw [show parseObjectMembers recur k
                (TsNode.propertySignature mdoc (some pn) q mty :: rest) acc st
                = parseObjectMembers recur k rest acc st from by
                  simp [parseObjectMembers, hn]] at h
              exact h
            · simpa [memberKeyName, hn] using hs
          · have hne : s ≠ s0 ∧ s ∉ rest.filterMap memberKeyName := by
              constructor
              · intro hcon
                exact hs (by simp [memberKeyName, hn, hcon])
              · intro hcon
                refine hs ?_
                simp only [List.filterMap_cons, memberKeyName, hn]
                exact List.mem_cons_of_mem s0 hcon
            rcases mty with _ | τ
            · rw [show parseObjectMembers recur k
                (TsNode.propertySignature mdoc (some pn) q none :: rest) acc st
                = (.error .jsTypeError, st) from by simp [parseObjectMembers, hn]] at h
              cases h
            · have e1 := hrec τ none k st
              rcases h1 : recur τ none k st with ⟨r1, st1⟩
              rw [h1] at e1
              simp only at e1
              rw [e1] at h1
              cases r1 with
              | error e =>
                rw [show parseObjectMembers recur k
                  (TsNode.propertySignature mdoc (some pn) q (some τ) :: rest) acc st
                  = (.error e, st) from by simp [parseObjectMembers, hn, h1]] at h
                cases h
              | ok t =>
                rw [show parseObjectMembers recur k
                  (TsNode.propertySignature mdoc (some pn) q (some τ) :: rest) acc st
                  = parseObjectMembers recur k rest
                      (insertAssoc acc s0
                        (if q then Ty.union none none [t, .undefT none] else t)) st from by
                    simp [parseObjectMembers, hn, h1]] at h
                rw [ih _ st oms st' h s hne.2, lookupAssoc_insert_ne _ _ _ _ hne.1]
    · push_neg at hp
      rw [parseObjectMembers_cons_notprop recur k rest acc st m hp] at h
      refine ih acc st oms st' h s ?_
      simpa [List.filterMap_cons, memberKeyName_notprop m hp] using hs

/-- Characterization of a successful member loop run: when the
qualifying member names (together with the keys already accumulated) are
pairwise distinct, every named property signature is present in the
result, with its translated type — widened to `Union(type, Undefined)`
when the member is optional. -/
theorem parseObjectMembers_lookup
    (recur : TsNode → Option String → Bool → St → Except Err Ty × St)
    (hrec : ∀ n nm k s, (recur n nm k s).2 = s) (k : Bool) :
    ∀ (ms : List TsNode) (acc : List (String × Ty)) (st : St)
      (oms : List (String × Ty)) (st' : St),
      parseObjectMembers recur k ms acc st = (.ok oms, st') →
      (acc.map Prod.fst ++ ms.filterMap memberKeyName).Nodup →
      ∀ mdoc pn q τ, (TsNode.propertySignature mdoc (some pn) q (some τ)) ∈ ms →
      ∀ s, getMemberName pn = .ok (some s) →
      ∃ t, recur τ none k st = (.ok t, st)
        ∧ lookupAssoc oms s
          = some (if q then Ty.union none none [t, .undefT none] else t) := by
  intro ms
  induction ms with
  | nil =>
    intro acc st oms st' _ _ mdoc pn q τ hmem
    simp at hmem
  | cons m rest ih =>
    intro acc st oms st' h hnd mdoc pn q τ hmem s hgn
    by_cases hp : ∃ mdoc0 pn?0 q0 mty0, m = TsNode.propertySignature mdoc0 pn?0 q0 mty0
    · obtain ⟨mdoc0, pn?0, q0, mty0, rfl⟩ := hp
      rcases List.mem_cons.mp hmem with heqm | hmem'
      · -- the target member is the head
        injection heqm with h1 h2 h3 h4
        subst h1
        subst h2
        subst h3
        subst h4
        rw [show parseObjectMembers recur k
            (TsNode.propertySignature mdoc (some pn) q (some τ) :: rest) acc st
            = match recur τ none k st with
              | (.error e, st1) => (.error e, st1)
              | (.ok t, st1) => parseObjectMembers recur k rest
                  (insertAssoc acc s
                    (if q then Ty.union none none [t, .undefT none] else t)) st1
            from by simp [parseObjectMembers, hgn]] at h
        have e1 := hrec τ none k st
        rcases h1 : recur τ none k st with ⟨r1, st1⟩
        rw [h1] at e1
        simp only at e1
        rw [e1] at h1
        rw [h1] at h
        cases r1 with
        | error e => cases h
        | ok t =>
          refine ⟨t, by rw [e1], ?_⟩
          have hs_not : s ∉ rest.filterMap memberKeyName := by
            have : (acc.map Prod.fst ++ (s :: rest.filterMap memberKeyName)).Nodup := by
              simpa [List.filterMap_cons, memberKeyName, hgn] using hnd
            have h2 := (List.nodup_append.mp this).2.1
            exact (List.nodup_cons.mp h2).1
          rw [parseObjectMembers_lookup_stable recur hrec k rest _ st oms st' h s hs_not]
          exact lookupAssoc_insert_self _ _ _
      · -- the target member is in the tail
        rcases pn?0 with _ | pn0
        · simp only [parseObjectMembers] at h
          refine ih acc st oms st' h ?_ mdoc pn q τ hmem' s hgn
          simpa [List.filterMap_cons, memberKeyName] using hnd
        · rcases hn0 : getMemberName pn0 with e | nm0?
          · rw [show parseObjectMembers recur k
              (TsNode.propertySignature mdoc0 (some pn0) q0 mty0 :: rest) acc st
              = (.error e, st) from by simp [parseObjectMembers, hn0]] at h
            cases h
          · rcases nm0? with _ | s0
            · rw [show parseObjectMembers recur k
                (TsNode.propertySignature mdoc0 (some pn0) q0 mty0 :: rest) acc st
                = parseObjectMembers recur k rest acc st from by
                  simp [parseObjectMembers, hn0]] at h
              refine ih acc st oms st' h ?_ mdoc pn q τ hmem' s hgn
              simpa [List.filterMap_cons, memberKeyName, hn0] using hnd
            · rcases mty0 with _ | τ0
              · rw [show parseObjectMembers recur k
                  (TsNode.propertySignature mdoc0 (some pn0) q0 none :: rest) acc st
                  = (.error .jsTypeError, st) from by simp [parseObjectMembers, hn0]] at h
                cases h
              · have e1 := hrec τ0 none k st
                rcases h1 : recur τ0 none k st with ⟨r1, st1⟩
                rw [h1] at e1
                simp only at e1
                rw [e1] at h1
                cases r1 with
                | error e =>
                  rw [show parseObjectMembers recur k
                    (TsNode.propertySignature mdoc0 (some pn0) q0 (some τ0) :: rest) acc st
                    = (.error e, st) from by simp [parseObjectMembers, hn0, h1]] at h
                  cases h
                | ok t0 =>
                  rw [show parseObjectMembers recur k
                    (TsNode.propertySignature mdoc0 (some pn0) q0 (some τ0) :: rest) acc st
                    = parseObjectMembers recur k rest
                        (insertAssoc acc s0
                          (if q0 then Ty.union none none [t0, .undefT none] else t0)) st
                    from by simp [parseObjectMembers, hn0, h1]] at h
                  have hnd' : ((acc.map Prod.fst ++ [s0])
                      ++ rest.filterMap memberKeyName).Nodup := by
                    rw [List.append_assoc]
                    simpa [List.filterMap_cons, memberKeyName, hn0] using hnd
                  have hs0_not : s0 ∉ acc.map Prod.fst := by
                    have hnd2 : (acc.map Prod.fst ++ (s0 :: rest.filterMap memberKeyName)).Nodup := by
                      simpa [List.filterMap_cons, memberKeyName, hn0] using hnd
                    intro hcon
                    exact ((List.nodup_append.mp hnd2).2.2 hcon) (List.mem_cons_self s0 _)
                  refine ih _ st oms st' h ?_ mdoc pn q τ hmem' s hgn
                  rwa [insertAssoc_keys_of_not_mem acc s0 _ hs0_not]
    · push_neg at hp
      rw [parseObjectMembers_cons_notprop recur k rest acc st m hp] at h
      have hmem' : TsNode.propertySignature mdoc (some pn) q (some τ) ∈ rest := by
        rcases List.mem_cons.mp hmem with heqm | hmem'
        · exact absurd heqm.symm (hp mdoc (some pn) q (some τ))
        · exact hmem'
      refine ih acc st oms st' h ?_ mdoc pn q τ hmem' s hgn
      simpa [List.filterMap_cons, memberKeyName_notprop m hp] using hnd

/-- C7: translating a type literal (or an interface declaration — shown
here without heritage clauses, which are merged in a separate step) into
an Object turns each named property signature into a member, and rewrites
every optional member's type as `Union(type, Undefined)`. -/
theorem C7_optional_property_widening :
    (∀ (prog : Program) (imap : ImportMap) (f : Nat) (d : Option String)
       (name : Option String) (k : Bool) (ms : List TsNode) (st : St) (res : Ty) (st' : St),
       parseType prog imap (f + 1) (.typeLiteral d ms) name k st = (.ok res, st') →
       (ms.filterMap memberKeyName).Nodup →
       ∃ oms, res = .obj d name oms ∧
         ∀ mdoc pn q τ, (TsNode.propertySignature mdoc (some pn) q (some τ)) ∈ ms →
         ∀ s, getMemberName pn = .ok (some s) →
         ∃ t, parseType prog imap f τ none k st = (.ok t, st)
           ∧ lookupAssoc oms s
             = some (if q then Ty.union none none [t, .undefT none] else t))
    ∧ (∀ (prog : Program) (imap : ImportMap) (f : Nat) (d : Option String) (nm : String)
       (tp : Nat) (name : Option String) (k : Bool) (ms : List TsNode) (st : St)
       (res : Ty) (st' : St),
       parseType prog imap (f + 1) (.interfaceDecl d nm tp [] ms) name k st = (.ok res, st') →
       (ms.filterMap memberKeyName).Nodup →
       ∃ oms, res = .obj d name oms ∧
         ∀ mdoc pn q τ, (TsNode.propertySignature mdoc (some pn) q (some τ)) ∈ ms →
         ∀ s, getMemberName pn = .ok (some s) →
         ∃ t, parseType prog imap f τ none k st = (.ok t, st)
           ∧ lookupAssoc oms s
             = some (if q then Ty.union none none [t, .undefT none] else t)) := by
  constructor
  · intro prog imap f d name k ms st res st' hp hnd
    have e1 := parseObjectMembers_preserves _ (parseType_preserves prog imap f) k ms [] st
    rcases h1 : parseObjectMembers (parseType prog imap f) k ms [] st with ⟨r1, st1⟩
    rw [h1] at e1
    simp only at e1
    rw [e1] at h1
    simp only [parseType, h1] at hp
    cases r1 with
    | error e => cases hp
    | ok oms =>
      simp only at hp
      obtain ⟨heq, -⟩ : Ty.obj d name oms = res ∧ st = st' := by
        injection hp with h2 h3
        injection h2 with h2
        exact ⟨h2, h3⟩
      refine ⟨oms, heq.symm, ?_⟩
      intro mdoc pn q τ hmem s hgn
      exact parseObjectMembers_lookup (parseType prog imap f)
        (parseType_preserves prog imap f) k ms [] st oms st h1 (by simpa using hnd)
        mdoc pn q τ hmem s hgn
  · intro prog imap f d nm tp name k ms st res st' hp hnd
    have e1 := parseObjectMembers_preserves _ (parseType_preserves prog imap f) k ms [] st
    rcases h1 : parseObjectMembers (parseType prog imap f) k ms [] st with ⟨r1, st1⟩
    rw [h1] at e1
    simp only at e1
    rw [e1] at h1
    simp only [parseType, h1] at hp
    cases r1 with
    | error e => cases hp
    | ok oms =>
      simp only [parseHeritage] at hp
      obtain ⟨heq, -⟩ : Ty.obj d name oms = res ∧ st = st' := by
        injection hp with h2 h3
        injection h2 with h2
        exact ⟨h2, h3⟩
      refine ⟨oms, heq.symm, ?_⟩
      intro mdoc pn q τ hmem s hgn
      exact parseObjectMembers_lookup (parseType prog imap f)
        (parseType_preserves prog imap f) k ms [] st oms st h1 (by simpa using hnd)
        mdoc pn q τ hmem s hgn

/-- Witness for C7: the type literal `{x?: number}` translated at a
concrete context. -/
theorem C7_optional_property_widening_witness :
    ∃ oms, (Ty.obj none none
        [("x", Ty.union none none [Ty.num none none .all, Ty.undefT none])] : Ty)
        = .obj none none oms
      ∧ ∀ mdoc pn q τ, (TsNode.propertySignature mdoc (some pn) q (some τ)) ∈
          [TsNode.propertySignature none (some (.identName "x")) true
            (some (.numberKeyword none))] →
        ∀ s, getMemberName pn = .ok (some s) →
        ∃ t, parseType emptyProgram emptyImports 2 τ none false st0 = (.ok t, st0)
          ∧ lookupAssoc oms s
            = some (if q then Ty.union none none [t, .undefT none] else t) :=
  C7_optional_property_widening.1 emptyProgram emptyImports 2 none none false
    [TsNode.propertySignature none (some (.identName "x")) true (some (.numberKeyword none))]
    st0 (Ty.obj none none [("x", Ty.union none none [Ty.num none none .all, Ty.undefT none])])
    st0 rfl (by decide)

/-- C2 counterexample: for `interface P { x: string }` and
`interface I extends P { x: number }`, the translated Object carries the
PARENT's member type (`string`), not the interface's own (`number`) —
heritage members are spread over the own members, so the parent wins. -/
theorem C2_heritage_override_counterexample :
    (parseType
      ⟨[("m", [.interfaceDecl none "P" 0 []
        [.propertySignature none (some (.identName "x")) false (some (.stringKeyword none))]])]⟩
      emptyImports 5
      (.interfaceDecl none "I" 0 [[.exprWithTypeArgs none (some "P")]]
        [.propertySignature none (some (.identName "x")) false (some (.numberKeyword none))])
      none false st0).1
      = .ok (.obj none none [("x", .str none none .all)])
    ∧ (Ty.str none none .all ≠ Ty.num none none .all) :=
  ⟨rfl, fun h => Ty.noConfusion h⟩

/-- C2 (amended): when translating an interface declaration, the
interface's OWN members are translated first and the heritage clauses
are then spread over them, so for every member name declared both in a
parent and in the interface itself, the PARENT's member type is the one
present in the resulting Object (and names in no parent keep the
interface's own type, in its original position). -/
theorem C2_heritage_merge_order :
    (∀ (prog : Program) (imap : ImportMap) (f : Nat) (d : Option String) (nm : String)
       (tp : Nat) (hs : List (List TsNode)) (ms : List TsNode) (name : Option String)
       (k : Bool) (st : St) (own : List (String × Ty)) (st1 : St)
       (oms : List (String × Ty)) (st2 : St),
       parseObjectMembers (parseType prog imap f) k ms [] st = (.ok own, st1) →
       parseHeritage (parseType prog imap f) k hs own st1 = (.ok oms, st2) →
       parseType prog imap (f + 1) (.interfaceDecl d nm tp hs ms) name k st
         = (.ok (.obj d name oms), st2))
    ∧ (∀ (prog : Program) (imap : ImportMap) (f : Nat) (k : Bool) (pt : TsNode)
       (own : List (String × Ty)) (st : St) (st1 : St) (pd pname : Option String)
       (pms : List (String × Ty)),
       parseType prog imap f pt none k st = (.ok (.obj pd pname pms), st1) →
       parseHeritage (parseType prog imap f) k [[pt]] own st
         = (.ok (spreadMerge own pms), st1))
    ∧ (∀ (own pms : List (String × Ty)) (s : String),
       (pms.map Prod.fst).Nodup → s ∈ pms.map Prod.fst →
       lookupAssoc (spreadMerge own pms) s = lookupAssoc pms s)
    ∧ (∀ (own pms : List (String × Ty)) (s : String),
       s ∉ pms.map Prod.fst →
       lookupAssoc (spreadMerge own pms) s = lookupAssoc own s) := by
  refine ⟨?_, ?_, spreadMerge_lookup_mem, spreadMerge_lookup_not_mem⟩
  · intro prog imap f d nm tp hs ms name k st own st1 oms st2 h1 h2
    simp only [parseType, h1, h2]
  · intro prog imap f k pt own st st1 pd pname pms h
    simp only [parseHeritage, parseHeritageTypes, h]

/-- Witness for C2: the merge conjuncts applied to the concrete member
maps of the counterexample (`own = {x: number}`, parent `{x: string}`),
and the heritage step applied to a concrete parent node. -/
theorem C2_heritage_merge_order_witness :
    lookupAssoc (spreadMerge [("x", Ty.num none none .all)] [("x", Ty.str none none .all)]) "x"
        = lookupAssoc [("x", Ty.str none none .all)] "x"
    ∧ lookupAssoc (spreadMerge [("x", Ty.num none none .all)] [("y", Ty.str none none .all)]) "z"
        = lookupAssoc [("x", Ty.num none none .all)] "z"
    ∧ parseHeritage (parseType emptyProgram emptyImports 1) false
        [[.objectKeyword none]] [("x", Ty.num none none .all)] st0
        = (.ok (spreadMerge [("x", Ty.num none none .all)] []), st0) :=
  ⟨C2_heritage_merge_order.2.2.1 [("x", Ty.num none none .all)]
     [("x", Ty.str none none .all)] "x" (by decide) (by decide),
   C2_heritage_merge_order.2.2.2 [("x", Ty.num none none .all)]
     [("y", Ty.str none none .all)] "z" (by decide),
   C2_heritage_merge_order.2.1 emptyProgram emptyImports 1 false
     (.objectKeyword none) [("x", Ty.num none none .all)] st0 st0 none none [] rfl⟩

/-- Members that are not property signatures are skipped by the response
loop. -/
theorem parseResponseMembers_cons_notprop
    (recur : TsNode → Option String → Bool → St → Except Err Ty × St)
    (rest : List TsNode) (st : St) (m : TsNode)
    (h : ∀ mdoc pn? q mty, m ≠ TsNode.propertySignature mdoc pn? q mty) :
    parseResponseMembers recur (m :: rest) st = parseResponseMembers recur rest st := by
  cases m <;> first | rfl | exact absurd rfl (h _ _ _ _)

/-- The formula `respSpec` ignores members that are not property signatures. -/
theorem respSpec_notprop
    (recur : TsNode → Option String → Bool → St → Except Err Ty × St) (st : St) (m : TsNode)
    (h : ∀ mdoc pn? q mty, m ≠ TsNode.propertySignature mdoc pn? q mty) :
    respSpec recur st m = none := by
  cases m <;> first | rfl | exact absurd rfl (h _ _ _ _)

/-- Response-loop step for a parsing member whose type is not the
`undefined` keyword: the type is translated as the body. -/
theorem parseResponseMembers_cons_not_undef
    (recur : TsNode → Option String → Bool → St → Except Err Ty × St)
    (rest : List TsNode) (st : St) (d : Option String) (pn : PropName) (q : Bool)
    (rc : String) (v : Int) (τ : TsNode)
    (hn : getMemberName pn = .ok (some rc)) (hv : parseIntJs rc = some v)
    (hτ : ∀ du, τ ≠ TsNode.undefinedKeyword du) :
    parseResponseMembers recur (.propertySignature d (some pn) q (some τ) :: rest) st
      = match recur τ none false st with
        | (.error e, st') => (.error e, st')
        | (.ok t, st') =>
          match parseResponseMembers recur rest st' with
          | (.error e, st'') => (.error e, st'')
          | (.ok rs, st'') => (.ok (⟨d, v, some t⟩ :: rs), st'') := by
  cases τ <;> first
    | exact absurd rfl (hτ _)
    | (simp [parseResponseMembers, hn, hv])

/-- The formula `respSpec` on a parsing member whose type is not the `undefined`
keyword. -/
theorem respSpec_not_undef
    (recur : TsNode → Option String → Bool → St → Except Err Ty × St) (st : St)
    (d : Option String) (pn : PropName) (q : Bool) (rc : String) (v : Int) (τ : TsNode)
    (hn : getMemberName pn = .ok (some rc)) (hv : parseIntJs rc = some v)
    (hτ : ∀ du, τ ≠ TsNode.undefinedKeyword du) :
    respSpec recur st (.propertySignature d (some pn) q (some τ))
      = match (recur τ none false st).1 with
        | .ok t => some ⟨d, v, some t⟩
        | .error _ => none := by
  cases τ <;> first
    | exact absurd rfl (hτ _)
    | (simp [respSpec, hn, hv])

/-- Characterization of a successful response loop: the result is the
`filterMap` of `respSpec` — members whose names do not `parseInt` are
silently dropped, never a failure. -/
theorem parseResponseMembers_spec
    (recur : TsNode → Option String → Bool → St → Except Err Ty × St)
    (hrec : ∀ n nm k s, (recur n nm k s).2 = s) :
    ∀ (ms : List TsNode) (st : St) (rs : List IResponse) (st' : St),
      parseResponseMembers recur ms st = (.ok rs, st') →
      st' = st ∧ rs = ms.filterMap (respSpec recur st) := by
  intro ms
  induction ms with
  | nil =>
    intro st rs st' h
    simp only [parseResponseMembers] at h
    cases h
    exact ⟨rfl, rfl⟩
  | cons m rest ih =>
    intro st rs st' h
    by_cases hp : ∃ mdoc pn? q mty, m = TsNode.propertySignature mdoc pn? q mty
    · obtain ⟨mdoc, pn?, q, mty, rfl⟩ := hp
      rcases pn? with _ | pn
      · simp only [parseResponseMembers] at h
        obtain ⟨h1, h2⟩ := ih st rs st' h
        exact ⟨h1, by simpa [List.filterMap_cons, respSpec] using h2⟩
      · rcases hn : getMemberName pn with e | rc?
        · rw [show parseResponseMembers recur
            (TsNode.propertySignature mdoc (some pn) q mty :: rest) st
            = (.error e, st) from by simp [parseResponseMembers, hn]] at h
          cases h
        · rcases rc? with _ | rc
          · rw [show parseResponseMembers recur
              (TsNode.propertySignature mdoc (some pn) q mty :: rest) st
              = parseResponseMembers recur rest st from by
                simp [parseResponseMembers, hn, parseIntJs]] at h
            obtain ⟨h1, h2⟩ := ih st rs st' h
            refine ⟨h1, ?_⟩
            rcases mty with _ | τ <;>
              simpa [List.filterMap_cons, respSpec, hn] using h2
          · rcases hv : parseIntJs rc with _ | v
            · rw [show parseResponseMembers recur
                (TsNode.propertySignature mdoc (some pn) q mty :: rest) st
                = parseResponseMembers recur rest st from by
                  simp [parseResponseMembers, hn, hv]] at h
              obtain ⟨h1, h2⟩ := ih st rs st' h
              refine ⟨h1, ?_⟩
              rcases mty with _ | τ <;>
                simpa [List.filterMap_cons, respSpec, hn, hv] using h2
            · rcases mty with _ | τ
              · rw [show parseResponseMembers recur
                  (TsNode.propertySignature mdoc (some pn) q none :: rest) st
                  = parseResponseMembers recur rest st from by
                    simp [parseResponseMembers, hn, hv]] at h
                obtain ⟨h1, h2⟩ := ih st rs st' h
                exact ⟨h1, by simpa [List.filterMap_cons, respSpec, hn, hv] using h2⟩
              · by_cases hu : ∃ du, τ = TsNode.undefinedKeyword du
                · obtain ⟨du, rfl⟩ := hu
                  rw [show parseResponseMembers recur
                    (TsNode.propertySignature mdoc (some pn) q
                      (some (.undefinedKeyword du)) :: rest) st
                    = match parseResponseMembers recur rest st with
                      | (.error e, st1) => (.error e, st1)
                      | (.ok rs1, st1) => (.ok (⟨mdoc, v, none⟩ :: rs1), st1)
                    from by simp [parseResponseMembers, hn, hv]] at h
                  rcases h2 : parseResponseMembers recur rest st with ⟨r2, st2⟩
                  rw [h2] at h
                  cases r2 with
                  | error e => cases h
                  | ok rs2 =>
                    simp only at h
                    obtain ⟨ha, hb⟩ : (⟨mdoc, v, none⟩ : IResponse) :: rs2 = rs ∧ st2 = st' := by
                      injection h with h3 h4
                      injection h3 with h3
                      exact ⟨h3, h4⟩
                    obtain ⟨h5, h6⟩ := ih st rs2 st2 h2
                    refine ⟨hb ▸ h5, ?_⟩
                    rw [← ha, h6]
                    simp [List.filterMap_cons, respSpec, hn, hv]
                · push_neg at hu
                  rw [parseResponseMembers_cons_not_undef recur rest st mdoc pn q rc v τ
                    hn hv hu] at h
                  have e1 := hrec τ none false st
                  rcases h1 : recur τ none false st with ⟨r1, st1⟩
                  rw [h1] at e1
                  simp only at e1
                  rw [e1] at h1
                  rw [h1] at h
                  cases r1 with
                  | error e => cases h
                  | ok t =>
                    simp only at h
                    rcases h2 : parseResponseMembers recur rest st with ⟨r2, st2⟩
                    rw [h2] at h
                    cases r2 with
                    | error e => cases h
                    | ok rs2 =>
                      simp only at h
                      obtain ⟨ha, hb⟩ : (⟨mdoc, v, some t⟩ : IResponse) :: rs2 = rs ∧ st2 = st' := by
                        injection h with h3 h4
                        injection h3 with h3
                        exact ⟨h3, h4⟩
                      obtain ⟨h5, h6⟩ := ih st rs2 st2 h2
                      refine ⟨hb ▸ h5, ?_⟩
                      rw [← ha, h6]
                      rw [List.filterMap_cons,
                        respSpec_not_undef recur st mdoc pn q rc v τ hn hv hu, h1]
    · push_neg at hp
      rw [parseResponseMembers_cons_notprop recur rest st m hp] at h
      obtain ⟨h1, h2⟩ := ih st rs st' h
      exact ⟨h1, by simpa [List.filterMap_cons, respSpec_notprop recur st m hp] using h2⟩

/-- C3 counterexample: a response type-literal member named
`notanumber` does NOT abort processing — the member loop succeeds with
the member silently skipped (the responses list stays empty). -/
theorem C3_response_skip_counterexample :
    findMethodCallInfoOnMembers (parseType emptyProgram emptyImports 1)
      [.propertySignature none (some (.identName "response")) false
        (some (.typeLiteral none
          [.propertySignature none (some (.identName "notanumber")) false
            (some (.numberKeyword none))]))]
      defaultMethodCallInfo st0
      = (.ok defaultMethodCallInfo, st0)
    ∧ defaultMethodCallInfo.responses = [] :=
  ⟨rfl, rfl⟩

/-- C3 (amended): when building a RouteMethod's response list, every
member name of the response type-literal is run through `parseInt`; a
member whose name does not parse to an integer is SILENTLY SKIPPED (no
error is raised and processing continues); a member whose name parses
(including a negative number or a numeric prefix) contributes a response
with that status; a member typed as the `undefined` keyword yields a
response with an empty body; any other member type is translated as the
response body. -/
theorem C3_response_member_processing :
    (∀ (prog : Program) (imap : ImportMap) (f : Nat) (ms : List TsNode) (st : St)
       (rs : List IResponse) (st' : St),
       parseResponseMembers (parseType prog imap f) ms st = (.ok rs, st') →
       st' = st ∧ rs = ms.filterMap (respSpec (parseType prog imap f) st))
    ∧ (∀ (prog : Program) (imap : ImportMap) (f : Nat) (d d2 : Option String)
       (rms : List TsNode) (st : St) (info : IMethodCallInfo) (st' : St),
       findMethodCallInfoOnMembers (parseType prog imap f)
         [.propertySignature d (some (.identName "response")) false
           (some (.typeLiteral d2 rms))]
         defaultMethodCallInfo st = (.ok info, st') →
       st' = st ∧ info = { defaultMethodCallInfo with
         responses := rms.filterMap (respSpec (parseType prog imap f) st) })
    ∧ (∀ (recur : TsNode → Option String → Bool → St → Except Err Ty × St) (st : St)
       (d : Option String) (pn : PropName) (q : Bool) (τ : TsNode) (rc : String),
       getMemberName pn = .ok (some rc) → parseIntJs rc = none →
       respSpec recur st (.propertySignature d (some pn) q (some τ)) = none)
    ∧ (∀ (recur : TsNode → Option String → Bool → St → Except Err Ty × St) (st : St)
       (d du : Option String) (pn : PropName) (q : Bool) (rc : String) (v : Int),
       getMemberName pn = .ok (some rc) → parseIntJs rc = some v →
       respSpec recur st (.propertySignature d (some pn) q
         (some (.undefinedKeyword du))) = some ⟨d, v, none⟩) := by
  refine ⟨?_, ?_, ?_, ?_⟩
  · intro prog imap f ms st rs st' h
    exact parseResponseMembers_spec (parseType prog imap f)
      (parseType_preserves prog imap f) ms st rs st' h
  · intro prog imap f d d2 rms st info st' h
    simp only [findMethodCallInfoOnMembers, getMemberName] at h
    norm_num only at h
    rcases h1 : parseResponseMembers (parseType prog imap f) rms st with ⟨r1, st1⟩
    rw [h1] at h
    cases r1 with
    | error e => cases h
    | ok rs =>
      simp only [findMethodCallInfoOnMembers] at h
      obtain ⟨ha, hb⟩ : ({ defaultMethodCallInfo with responses := rs } : IMethodCallInfo)
          = info ∧ st1 = st' := by
        injection h with h2 h3
        injection h2 with h2
        exact ⟨h2, h3⟩
      obtain ⟨h4, h5⟩ := parseResponseMembers_spec (parseType prog imap f)
        (parseType_preserves prog imap f) rms st rs st1 h1
      subst h4
      exact ⟨hb.symm, by rw [← ha, h5]⟩
  · intro recur st d pn q τ rc hn hv
    simp [respSpec, hn, hv]
  · intro recur st d du pn q rc v hn hv
    simp [respSpec, hn, hv]

/-- Witness for C3: a response literal with a non-integer-named member, a
valid `200` member, and a `204: undefined` member. -/
theorem C3_response_member_processing_witness :
    findMethodCallInfoOnMembers (parseType emptyProgram emptyImports 1)
      [.propertySignature none (some (.identName "response")) false
        (some (.typeLiteral none
          [.propertySignature none (some (.identName "notanumber")) false
            (some (.numberKeyword none)),
           .propertySignature none (some (.numericName "200")) false
            (some (.numberKeyword none)),
           .propertySignature none (some (.numericName "204")) false
            (some (.undefinedKeyword none))]))]
      defaultMethodCallInfo st0
      = (.ok { defaultMethodCallInfo with responses :=
          [⟨none, 200, some (.num none none .all)⟩, ⟨none, 204, none⟩] }, st0) := by
  have h := C3_response_member_processing.2.1 emptyProgram emptyImports 1 none none
    [.propertySignature none (some (.identName "notanumber")) false
      (some (.numberKeyword none)),
     .propertySignature none (some (.numericName "200")) false
      (some (.numberKeyword none)),
     .propertySignature none (some (.numericName "204")) false
      (some (.undefinedKeyword none))]
    st0
    { defaultMethodCallInfo with responses :=
        [⟨none, 200, some (.num none none .all)⟩, ⟨none, 204, none⟩] }
    st0 rfl
  exact rfl

theorem spacesStr_length (n : Nat) : (spacesStr n).length = n := by
  simp [spacesStr, String.length]

theorem spacesStr_data (n : Nat) : (spacesStr n).data = List.replicate n ' ' := rfl

theorem le_foldl_max_init (l : List Nat) : ∀ a : Nat, a ≤ l.foldl max a := by
  induction l with
  | nil => intro a; exact le_refl a
  | cons x xs ih =>
    intro a
    exact le_trans (le_max_left a x) (ih (max a x))

theorem mem_le_foldl_max (l : List Nat) : ∀ (a x : Nat), x ∈ l → x ≤ l.foldl max a := by
  induction l with
  | nil => intro a x hx; simp at hx
  | cons y ys ih =>
    intro a x hx
    rcases List.mem_cons.mp hx with rfl | hx
    · exact le_trans (le_max_right a x) (le_foldl_max_init ys (max a x))
    · exact ih (max a y) x hx

theorem line_le_width (b : TextBlock) (line : String) (h : line ∈ b.lines) :
    b.indention + line.length ≤ b.width := by
  have : line.length ≤ (b.lines.map String.length).foldl max 0 :=
    mem_le_foldl_max _ 0 line.length (List.mem_map_of_mem String.length h)
  unfold TextBlock.width
  omega

theorem toRectString_length (b : TextBlock) : b.toRectString.length = b.height := by
  simp [TextBlock.toRectString, TextBlock.toIndentStrings, TextBlock.height]

theorem toRectString_line_length (b : TextBlock) :
    ∀ line ∈ b.toRectString, line.length = b.width := by
  intro line hline
  simp only [TextBlock.toRectString, TextBlock.toIndentStrings, List.map_map,
    List.mem_map] at hline
  obtain ⟨l0, hl0, rfl⟩ := hline
  have hle := line_le_width b l0 hl0
  simp only [Function.comp_apply, String.length_append, spacesStr_length]
  omega

theorem map_blank_of_no_term (l : List Char) (h : ∀ c ∈ l, isLineTerm c = false) :
    l.map (fun c => if isLineTerm c then c else ' ') = List.replicate l.length ' ' := by
  induction l with
  | nil => rfl
  | cons c cs ih =>
    simp only [List.map_cons, List.length_cons, List.replicate_succ]
    rw [h c (List.mem_cons_self c cs), ih (fun c hc => h c (List.mem_cons_of_mem _ hc))]
    simp

theorem blankLike_of_no_term (s : String) (h : ∀ c ∈ s.data, isLineTerm c = false) :
    blankLike s = spacesStr s.length := by
  simp only [blankLike, spacesStr, String.length]
  rw [map_blank_of_no_term s.data h]

theorem isLineTerm_space : isLineTerm ' ' = false := rfl

theorem toRectString_line_no_term (b : TextBlock)
    (hterm : ∀ line ∈ b.lines, ∀ c ∈ line.data, isLineTerm c = false) :
    ∀ line ∈ b.toRectString, ∀ c ∈ line.data, isLineTerm c = false := by
  intro line hline c hc
  simp only [TextBlock.toRectString, TextBlock.toIndentStrings, List.map_map,
    List.mem_map] at hline
  obtain ⟨l0, hl0, rfl⟩ := hline
  simp only [Function.comp_apply, String.data_append, spacesStr_data,
    List.mem_append] at hc
  rcases hc with (hc | hc) | hc
  · rw [List.eq_of_mem_replicate hc]
    exact isLineTerm_space
  · exact hterm l0 hl0 c hc
  · rw [List.eq_of_mem_replicate hc]
    exact isLineTerm_space

theorem zipWith_append_replicate_empty (l : List String) :
    List.zipWith (· ++ ·) (List.replicate l.length "") l = l := by
  induction l with
  | nil => rfl
  | cons s rest ih =>
    simp only [List.length_cons, List.replicate_succ, List.zipWith_cons_cons, ih]
    simp

theorem foldl_zipWith_length (m : Nat) :
    ∀ (t : List (List String)) (h0 : List String), h0.length = m →
      (∀ bl ∈ t, bl.length = m) →
      (t.foldl (fun acc bl => acc.zipWith (· ++ ·) bl) h0).length = m := by
  intro t
  induction t with
  | nil => intro h0 hh _; exact hh
  | cons bl rest ih =>
    intro h0 hh hmem
    simp only [List.foldl_cons]
    refine ih _ ?_ (fun b hb => hmem b (List.mem_cons_of_mem bl hb))
    rw [List.length_zipWith, hh, hmem bl (List.mem_cons_self bl rest)]
    simp

/-- On blocks that have at least one line each and contain no line
terminators, `hcat` computes exactly the claim's description. -/
theorem hcat_eq_claimSpec (blocks : List TextBlock)
    (hne : ∀ b ∈ blocks, b.lines ≠ [])
    (hterm : ∀ b ∈ blocks, ∀ line ∈ b.lines, ∀ c ∈ line.data, isLineTerm c = false) :
    TextBlock.hcat blocks = some (hcatClaimSpec blocks) := by
  rcases blocks with _ | ⟨b0, bs⟩
  · rfl
  · have hfilter : ((TextBlock.EMPTY.toRectString
        :: ((b0 :: bs).map TextBlock.toRectString)).filter (fun bl => bl.length > 0))
        = (b0 :: bs).map TextBlock.toRectString := by
      rw [show TextBlock.EMPTY.toRectString = [] from rfl, List.filter_cons,
        if_neg (by simp)]
      rw [List.filter_eq_self]
      intro bl hbl
      obtain ⟨b, hb, rfl⟩ := List.mem_map.mp hbl
      rw [toRectString_length b]
      simpa [TextBlock.height, List.length_pos] using hne b hb
    have hheights : (((b0 :: bs).map TextBlock.toRectString).map List.length).foldl max
          TextBlock.EMPTY.height
        = ((b0 :: bs).map TextBlock.height).foldl max 0 := by
      rw [List.map_map]
      have e : (b0 :: bs).map (List.length ∘ TextBlock.toRectString)
          = (b0 :: bs).map TextBlock.height :=
        List.map_congr_left (fun b _ => toRectString_length b)
      rw [e]
      rfl
    have hpad : ∀ b ∈ (b0 :: bs),
        ((fun bl => match bl with
         | [] => ([] : List String)
         | h :: t => (h :: t) ++ List.replicate
             (((b0 :: bs).map TextBlock.height).foldl max 0 - (h :: t).length)
             (blankLike h)) ∘ TextBlock.toRectString) b
        = b.toRectString ++ List.replicate
            (((b0 :: bs).map TextBlock.height).foldl max 0 - b.height)
            (spacesStr b.width) := by
      intro b hb
      simp only [Function.comp_apply]
      rcases hrect : b.toRectString with _ | ⟨h0, t0⟩
      · exfalso
        have := toRectString_length b
        rw [hrect] at this
        exact hne b hb (List.length_eq_zero.mp this.symm)
      · have hlen : (h0 :: t0).length = b.height := by
          rw [← hrect]; exact toRectString_length b
        have hmem0 : h0 ∈ b.toRectString := by rw [hrect]; exact List.mem_cons_self _ _
        have hblank : blankLike h0 = spacesStr b.width := by
          rw [blankLike_of_no_term h0
            (toRectString_line_no_term b (hterm b hb) h0 hmem0),
            toRectString_line_length b h0 hmem0]
        show (h0 :: t0) ++ List.replicate
            (((b0 :: bs).map TextBlock.height).foldl max 0 - (h0 :: t0).length)
            (blankLike h0)
          = (h0 :: t0) ++ List.replicate
              (((b0 :: bs).map TextBlock.height).foldl max 0 - b.height)
              (spacesStr b.width)
        rw [hlen, hblank]
    have hlen0 : (b0.toRectString ++ List.replicate
          (((b0 :: bs).map TextBlock.height).foldl max 0 - b0.height)
          (spacesStr b0.width)).length
        = ((b0 :: bs).map TextBlock.height).foldl max 0 := by
      rw [List.length_append, toRectString_length, List.length_replicate]
      have h := mem_le_foldl_max ((b0 :: bs).map TextBlock.height) 0 b0.height
        (List.mem_map_of_mem TextBlock.height (List.mem_cons_self b0 bs))
      omega
    have hseed := zipWith_append_replicate_empty
      (b0.toRectString ++ List.replicate
        (((b0 :: bs).map TextBlock.height).foldl max 0 - b0.height)
        (spacesStr b0.width))
    rw [hlen0] at hseed
    simp only [TextBlock.hcat, TextBlock.hcatL, List.isEmpty_cons, Bool.false_eq_true,
      if_false, hfilter, hheights]
    rw [List.map_map, List.map_congr_left hpad]
    show some (⟨(bs.map (fun b => b.toRectString ++ List.replicate
        (((b0 :: bs).map TextBlock.height).foldl max 0 - b.height)
        (spacesStr b.width))).foldl (fun acc bl => acc.zipWith (· ++ ·) bl)
        (b0.toRectString ++ List.replicate
          (((b0 :: bs).map TextBlock.height).foldl max 0 - b0.height)
          (spacesStr b0.width)), 0⟩ : TextBlock)
      = some (hcatClaimSpec (b0 :: bs))
    rw [show hcatClaimSpec (b0 :: bs)
        = (⟨(bs.map (fun b => b.toRectString ++ List.replicate
            (((b0 :: bs).map TextBlock.height).foldl max 0 - b.height)
            (spacesStr b.width))).foldl (fun acc bl => acc.zipWith (· ++ ·) bl)
            (List.zipWith (· ++ ·)
              (List.replicate (((b0 :: bs).map TextBlock.height).foldl max 0) "")
              (b0.toRectString ++ List.replicate
                (((b0 :: bs).map TextBlock.height).foldl max 0 - b0.height)
                (spacesStr b0.width))), 0⟩ : TextBlock) from rfl]
    rw [hseed]

/-- The claim-spec result always has the maximum input height. -/
theorem hcatClaimSpec_height (blocks : List TextBlock) :
    (hcatClaimSpec blocks).height = (blocks.map TextBlock.height).foldl max 0 := by
  show (((blocks.map (fun b => b.toRectString ++ List.replicate
      ((blocks.map TextBlock.height).foldl max 0 - b.height)
      (spacesStr b.width)))).foldl (fun acc bl => acc.zipWith (· ++ ·) bl)
      (List.replicate ((blocks.map TextBlock.height).foldl max 0) "")).length
    = (blocks.map TextBlock.height).foldl max 0
  apply foldl_zipWith_length
  · simp
  · intro bl hbl
    obtain ⟨b, hb, rfl⟩ := List.mem_map.mp hbl
    rw [List.length_append, toRectString_length, List.length_replicate]
    have := mem_le_foldl_max (blocks.map TextBlock.height) 0 b.height
      (List.mem_map_of_mem TextBlock.height hb)
    omega

/-- C5 counterexample: a block with zero lines but positive indentation
is dropped entirely by `hcat`, while the claim's description would
contribute a column of spaces for it. -/
theorem C5_hcat_counterexample :
    TextBlock.hcat [⟨[], 1⟩, ⟨["X"], 0⟩] = some ⟨["X"], 0⟩
    ∧ hcatClaimSpec [⟨[], 1⟩, ⟨["X"], 0⟩] = ⟨[" X"], 0⟩
    ∧ (some (⟨["X"], 0⟩ : TextBlock) ≠ some (⟨[" X"], 0⟩ : TextBlock)) :=
  ⟨rfl, rfl, by decide⟩

/-- C5 (amended): for input blocks that each have at least one line (a
block with zero lines is dropped from the concatenation entirely, and an
input of only such blocks crashes the seedless `reduce`) and whose lines
contain no line-terminator characters, `hcat` pads each block's lines on
the right to the block's own width, pads each block vertically with
blank lines of that block's width up to the maximum input height, and
concatenates corresponding rows; result height = maximum input height,
result indentation 0.  `hcat(["AB","CD"], ["X"])` gives `"ABX"` /
`"CD "`. -/
theorem C5_hcat_padding (blocks : List TextBlock)
    (hne : ∀ b ∈ blocks, b.lines ≠ [])
    (hterm : ∀ b ∈ blocks, ∀ line ∈ b.lines, ∀ c ∈ line.data, isLineTerm c = false) :
    TextBlock.hcat blocks = some (hcatClaimSpec blocks)
    ∧ (hcatClaimSpec blocks).indention = 0
    ∧ (hcatClaimSpec blocks).height = (blocks.map TextBlock.height).foldl max 0
    ∧ TextBlock.hcat [⟨["AB", "CD"], 0⟩, ⟨["X"], 0⟩] = some ⟨["ABX", "CD "], 0⟩ :=
  ⟨hcat_eq_claimSpec blocks hne hterm, rfl, hcatClaimSpec_height blocks, rfl⟩

/-- Witness for C5: the amended theorem applied to the claim's own
example blocks. -/
theorem C5_hcat_padding_witness :
    TextBlock.hcat [⟨["AB", "CD"], 0⟩, ⟨["X"], 0⟩]
      = some (hcatClaimSpec [⟨["AB", "CD"], 0⟩, ⟨["X"], 0⟩])
    ∧ (hcatClaimSpec [⟨["AB", "CD"], 0⟩, ⟨["X"], 0⟩]).indention = 0
    ∧ (hcatClaimSpec [⟨["AB", "CD"], 0⟩, ⟨["X"], 0⟩]).height
        = ([⟨["AB", "CD"], 0⟩, (⟨["X"], 0⟩ : TextBlock)].map TextBlock.height).foldl max 0
    ∧ TextBlock.hcat [⟨["AB", "CD"], 0⟩, ⟨["X"], 0⟩] = some ⟨["ABX", "CD "], 0⟩ :=
  C5_hcat_padding [⟨["AB", "CD"], 0⟩, ⟨["X"], 0⟩] (by decide) (by decide)
